import Mathlib

/-!
Verification development for the NICE_APS constraint-model builder.
The Python sources are shallowly embedded: dates are integers (days),
Python dicts are association lists with overwrite-on-insert semantics,
floats appearing in configuration are rationals, and fallible code
returns Except.
-/

namespace APS

/-- Python-style errors that the embedded code can raise. -/
inductive PyError where
  | keyError
  | overflowError
  | importError
deriving DecidableEq

/-- Lookup in an association list, mirroring Python dict lookup. -/
def dictGet? {K V : Type} [DecidableEq K] (k : K) : List (K × V) → Option V
  | [] => none
  | kv :: rest => if kv.1 = k then some kv.2 else dictGet? k rest

/-- Insert into an association list, mirroring Python dict assignment:
an existing key keeps its position and gets the new value, a new key is
appended at the end. -/
def dictInsert {K V : Type} [DecidableEq K] (k : K) (v : V) : List (K × V) → List (K × V)
  | [] => [(k, v)]
  | kv :: rest => if kv.1 = k then (k, v) :: rest else kv :: dictInsert k v rest

/-- Embeds load_data.ProductionEfficiency; the float efficiency is a rational. -/
structure ProductionEfficiency where
  min_quantity : Int
  max_quantity : Int
  efficiency : ℚ
deriving DecidableEq

/-- Embeds load_data.CapacityPeriod; ISO date strings are integer day numbers. -/
structure CapacityPeriod where
  start_date : Int
  end_date : Int
  capacity_by_process : List (String × Int)
deriving DecidableEq

/-- Embeds load_data.Factory. -/
structure Factory where
  factory_id : String
  region : String
  production_efficiencies : List (String × List ProductionEfficiency)
  capacity_periods : List CapacityPeriod
deriving DecidableEq

/-- Embeds load_data.Order; fixed_assignment carries the optional
factory_id and period_start_date entries of the lock dict. -/
structure Order where
  order_id : String
  customer : String
  product_type : String
  style : String
  quantity : Int
  due_date : Int
  material_purchasing_lead_time : Int
  material_transportation_to_region_lead_time : List (String × Int)
  production_lead_time : Int
  total_process_capacity : List (String × Int)
  eligible_factories : List String
  order_type : Int
  fixed_assignment : Option (Option String × Option Int)
deriving DecidableEq

/-- Embeds the objective_weights map of settings.json; absent keys are none. -/
structure ObjectiveWeights where
  tardiness : Option ℚ := none
  jit_deviation : Option ℚ := none
  workload_balance : Option ℚ := none
deriving DecidableEq

/-- Embeds the tardiness_objective_config map of settings.json. -/
structure TardinessObjectiveConfig where
  firm_tardy_weight : Option ℚ := none
  forecast_tardy_weight : Option ℚ := none
deriving DecidableEq

/-- Embeds the jit_objective_config map of settings.json. -/
structure JitObjectiveConfig where
  allowed_earliness_deviation_days : Option Int := none
  allowed_tardiness_deviation_days : Option Int := none
  earliness_weight : Option ℚ := none
  lateness_weight : Option ℚ := none
  allowed_deviation_days : Option Int := none
deriving DecidableEq

/-- Embeds the parts of settings.json the modelled core reads; base_date
is already the parsed day number of run_config.base_date. -/
structure Settings where
  base_date : Int
  objective_weights : Option ObjectiveWeights := none
  tardiness_objective_config : Option TardinessObjectiveConfig := none
  jit_objective_config : Option JitObjectiveConfig := none
deriving DecidableEq

/-- Embeds process_data.APSInputData. -/
structure APSInputData where
  factories : List Factory
  orders : List Order
  settings : Settings
  factory_map : List (String × Factory)
  order_map : List (String × Order)
  base_date : Int
  order_total_base_workload : List (String × Int)
  factory_total_capacity_by_period : List (String × List (Int × Int))
deriving DecidableEq

/-- Identities of the CP-SAT model variable set the builders create,
mirroring the name patterns used in the sources. -/
inductive Var where
  | x (order_id : String) (factory_id : String) (period_start : Int)
  | is_tardy (order_id : String)
  | earliness_days (order_id : String)
  | tardiness_days (order_id : String)
  | max_earliness_days
  | max_tardiness_days
  | max_load_ratio_scaled
  | min_load_ratio_scaled
  | is_used (factory_id : String) (period_start : Int)
deriving DecidableEq

/-- Comparison operator of a linear constraint. -/
inductive LinCmp where
  | le
  | ge
  | eq
  | gt
deriving DecidableEq

/-- A linear constraint sum of terms cmp bound, optionally enforced only
when the literal (variable, polarity) holds, mirroring OnlyEnforceIf. -/
structure LinCon where
  terms : List (Int × Var)
  cmp : LinCmp
  bound : Int
  enforce : Option (Var × Bool) := none
deriving DecidableEq

/-- Constraints the builders add to the CP-SAT model. -/
inductive Constraint where
  | lin (c : LinCon)
  | exactly_one (vs : List Var)
  | max_equality (target : Var) (vs : List Var)
deriving DecidableEq

/-- A linear objective expression with rational coefficients, as
assembled by the objective builders before solver submission. -/
structure LinExpr where
  coeffs : List (ℚ × Var)
  const : ℚ
deriving DecidableEq

def LinExpr.zero : LinExpr := ⟨[], 0⟩

def LinExpr.ofVar (v : Var) : LinExpr := ⟨[(1, v)], 0⟩

def LinExpr.sumVars (vs : List Var) : LinExpr := ⟨vs.map (fun v => ((1 : ℚ), v)), 0⟩

def LinExpr.add (a b : LinExpr) : LinExpr := ⟨a.coeffs ++ b.coeffs, a.const + b.const⟩

def LinExpr.smul (c : ℚ) (e : LinExpr) : LinExpr :=
  ⟨e.coeffs.map (fun cv => (c * cv.1, cv.2)), c * e.const⟩

def LinExpr.listSum (l : List LinExpr) : LinExpr := l.foldl LinExpr.add LinExpr.zero

/-- Value of an expression under a (rational) valuation of the variables. -/
def LinExpr.eval (σ : Var → ℚ) (e : LinExpr) : ℚ :=
  e.const + (e.coeffs.map (fun cv => cv.1 * σ cv.2)).sum

/-- Total coefficient of a variable in an expression. -/
def coeffOf (e : LinExpr) (v : Var) : ℚ :=
  ((e.coeffs.filter (fun cv => decide (cv.2 = v))).map (fun cv => cv.1)).sum

/-- Weight map read in combined_objective with .get default {}. -/
def cfgWeights (s : Settings) : ObjectiveWeights := s.objective_weights.getD {}

/-- objective_weights.tardiness with default 0. -/
def w_tardiness (s : Settings) : ℚ := (cfgWeights s).tardiness.getD 0

/-- objective_weights.jit_deviation with default 0. -/
def w_jit_deviation (s : Settings) : ℚ := (cfgWeights s).jit_deviation.getD 0

/-- objective_weights.workload_balance with default 0. -/
def w_workload_balance (s : Settings) : ℚ := (cfgWeights s).workload_balance.getD 0

/-- tardiness_objective_config with default {}. -/
def cfgTardiness (s : Settings) : TardinessObjectiveConfig :=
  s.tardiness_objective_config.getD {}

/-- firm_tardy_weight with default 0.7. -/
def firm_tardy_weight (s : Settings) : ℚ := (cfgTardiness s).firm_tardy_weight.getD (7 / 10)

/-- forecast_tardy_weight with default 0.3. -/
def forecast_tardy_weight (s : Settings) : ℚ :=
  (cfgTardiness s).forecast_tardy_weight.getD (3 / 10)

/-- jit_objective_config with default {}. -/
def cfgJit (s : Settings) : JitObjectiveConfig := s.jit_objective_config.getD {}

/-- allowed_earliness_deviation_days with default 30. -/
def allowed_earliness_deviation_days (s : Settings) : Int :=
  (cfgJit s).allowed_earliness_deviation_days.getD 30

/-- allowed_tardiness_deviation_days with default 30. -/
def allowed_tardiness_deviation_days (s : Settings) : Int :=
  (cfgJit s).allowed_tardiness_deviation_days.getD 30

/-- earliness_weight with default 0.3. -/
def earliness_weight (s : Settings) : ℚ := (cfgJit s).earliness_weight.getD (3 / 10)

/-- lateness_weight with default 0.7. -/
def lateness_weight (s : Settings) : ℚ := (cfgJit s).lateness_weight.getD (7 / 10)

/-- allowed_deviation_days read by combined_objective, default 30. -/
def allowed_deviation_days (s : Settings) : Int := (cfgJit s).allowed_deviation_days.getD 30

/-- Python int() truncation of a rational (toward zero). -/
def int_trunc (q : ℚ) : Int := if 0 ≤ q then ⌊q⌋ else ⌈q⌉

/-- Embeds process_data._get_efficiency_for_order: tier lookup by product
type and quantity, defaulting to 1.0. -/
def get_efficiency_for_order (o : Order) (f : Factory) : ℚ :=
  match dictGet? o.product_type f.production_efficiencies with
  | none => 1
  | some tiers =>
    match tiers.find? (fun t => decide (t.min_quantity ≤ o.quantity) &&
        decide (o.quantity ≤ t.max_quantity)) with
    | some t => t.efficiency
    | none => 1

/-- Effort-adjusted workload int(base_workload / efficiency). -/
def actual_workload (base : Int) (eff : ℚ) : Int := int_trunc ((base : ℚ) / eff)

/-- The factory_by_id index built by process_data (dict comprehension,
later records overwrite earlier ones). -/
def buildFactoryMap (factories : List Factory) : List (String × Factory) :=
  factories.foldl (fun m f => dictInsert f.factory_id f m) []

/-- The order_by_id index built by process_data. -/
def buildOrderMap (orders : List Order) : List (String × Order) :=
  orders.foldl (fun m o => dictInsert o.order_id o m) []

/-- All process names a factory offers, as the union over its periods
(computed in process_data._validate_data_integrity). -/
def factoryProcessList (f : Factory) : List String :=
  f.capacity_periods.flatMap (fun p => p.capacity_by_process.map (fun pc => pc.1))

/-- Embeds the per-order pruning step of _validate_data_integrity:
eligible factories must exist and own every required process. -/
def validateOrder (fm : List (String × Factory)) (o : Order) : Order :=
  let required := o.total_process_capacity.map (fun pc => pc.1)
  if required = [] then o
  else
    { o with eligible_factories := o.eligible_factories.filter (fun fid =>
        match dictGet? fid fm with
        | none => false
        | some f => required.all (fun r => (factoryProcessList f).contains r)) }

/-- Total capacity per period of one factory, keyed by period start
(computed in _aggregate_data_for_balancing). -/
def totalCapacityByPeriod (f : Factory) : List (Int × Int) :=
  f.capacity_periods.foldl
    (fun m p => dictInsert p.start_date ((p.capacity_by_process.map (fun pc => pc.2)).sum) m) []

/-- Embeds process_data.process_data: builds the id maps, parses the base
date, aggregates balancing data and prunes eligibility in place. -/
def process_data (factories : List Factory) (orders : List Order) (settings : Settings) :
    APSInputData :=
  let fm := buildFactoryMap factories
  let validated := orders.map (validateOrder fm)
  { factories := factories
    orders := validated
    settings := settings
    factory_map := fm
    order_map := buildOrderMap validated
    base_date := settings.base_date
    order_total_base_workload := orders.foldl
      (fun m o => dictInsert o.order_id ((o.total_process_capacity.map (fun pc => pc.2)).sum) m) []
    factory_total_capacity_by_period := factories.foldl
      (fun m f => dictInsert f.factory_id (totalCapacityByPeriod f) m) [] }

/-- Nested variable store of the registry,
order_id to factory_id to period_start to variable. -/
abbrev VariableDict := List (String × List (String × List (Int × Var)))

/-- Embeds variable_registry.find_snapped_period_start_date: the official
start date of the first period of the checked factories containing the
locked date. -/
def find_snapped_period_start_date (d : Int) : List Factory → Option Int
  | [] => none
  | f :: rest =>
    match f.capacity_periods.find? (fun p => decide (p.start_date ≤ d) &&
        decide (d ≤ p.end_date)) with
    | some p => some p.start_date
    | none => find_snapped_period_start_date d rest

/-- The factory list a locked order is restricted to: the pinned factory
(a missing id raises KeyError) or all eligible factories present in the
factory map. -/
def restricted_factories (fm : List (String × Factory)) (o : Order) :
    Option String → Except PyError (List Factory)
  | some fid =>
    match dictGet? fid fm with
    | some f => .ok [f]
    | none => .error .keyError
  | none => .ok (o.eligible_factories.filterMap (fun fid => dictGet? fid fm))

/-- Inner period-to-variable dict for one factory of one order. -/
def period_dict (oid fid : String) (ps : List CapacityPeriod) : List (Int × Var) :=
  ps.foldl (fun d p => dictInsert p.start_date (Var.x oid fid p.start_date) d) []

/-- Periods searched for a locked order: all periods, or only those whose
start equals the snapped date. -/
def locked_periods (f : Factory) : Option Int → List CapacityPeriod
  | some s => f.capacity_periods.filter (fun p => decide (p.start_date = s))
  | none => f.capacity_periods

/-- Variable dict built for a locked order over its restricted factories. -/
def build_locked_dict (oid : String) (fts : List Factory) (snapped : Option Int) :
    List (String × List (Int × Var)) :=
  fts.foldl
    (fun acc f =>
      dictInsert f.factory_id (period_dict oid f.factory_id (locked_periods f snapped)) acc) []

/-- Hard x = 1 constraints added when both a factory and a snapped period
are pinned. -/
def build_locked_cons (oid : String) (fts : List Factory) (snapped : Option Int) (pin : Bool) :
    List Constraint :=
  if pin then
    fts.flatMap (fun f => (locked_periods f snapped).map (fun p =>
      Constraint.lin ⟨[(1, Var.x oid f.factory_id p.start_date)], .eq, 1, none⟩))
  else []

/-- Variable dict built for an unlocked order: all periods of every
eligible factory present in the factory map. -/
def build_unlocked (fm : List (String × Factory)) (o : Order) :
    List (String × List (Int × Var)) :=
  o.eligible_factories.foldl
    (fun acc fid =>
      match dictGet? fid fm with
      | none => acc
      | some f => dictInsert fid (period_dict o.order_id fid f.capacity_periods) acc) []

/-- Embeds the per-order body of variable_registry.create_variables. -/
def createVarsForOrder (fm : List (String × Factory)) (o : Order) :
    Except PyError (List (String × List (Int × Var)) × List Constraint) :=
  match o.fixed_assignment with
  | none => .ok (build_unlocked fm o, [])
  | some fa =>
    match fa.2 with
    | some d =>
      match restricted_factories fm o fa.1 with
      | .error e => .error e
      | .ok ftc =>
        match find_snapped_period_start_date d ftc with
        | none => .ok ([], [])
        | some s => .ok (build_locked_dict o.order_id ftc (some s),
            build_locked_cons o.order_id ftc (some s) fa.1.isSome)
    | none =>
      match restricted_factories fm o fa.1 with
      | .error e => .error e
      | .ok fts => .ok (build_locked_dict o.order_id fts none, [])

/-- Worker loop of create_variables over the order list. -/
def create_variables_go (fm : List (String × Factory)) :
    List Order → VariableDict → List Constraint →
    Except PyError (VariableDict × List Constraint)
  | [], x, cs => .ok (x, cs)
  | o :: rest, x, cs =>
    match createVarsForOrder fm o with
    | .error e => .error e
    | .ok (inner, cs2) => create_variables_go fm rest (dictInsert o.order_id inner x) (cs ++ cs2)

/-- Embeds variable_registry.create_variables: the nested variable dict
plus the hard lock constraints added during creation. -/
def create_variables (data : APSInputData) : Except PyError (VariableDict × List Constraint) :=
  create_variables_go data.factory_map data.orders [] []

/-- Three-level lookup of a decision variable, mirroring the nested
membership checks of the builders. -/
def var_lookup (vdict : VariableDict) (oid fid : String) (ps : Int) : Option Var :=
  match dictGet? oid vdict with
  | none => none
  | some fd =>
    match dictGet? fid fd with
    | none => none
    | some pd => dictGet? ps pd

/-- All decision vdict of one order collected across factories and
periods, as order_unique_assign iterates them. -/
def collect_order_vars (vdict : VariableDict) (oid : String) : List Var :=
  match dictGet? oid vdict with
  | none => []
  | some fd => fd.flatMap (fun fp => fp.2.map (fun pv => pv.2))

/-- Embeds order_unique_assign.add_order_unique_assign_constraint: one
AddExactlyOne per order that has at least one variable. -/
def add_order_unique_assign_constraint (data : APSInputData) (vdict : VariableDict) :
    List Constraint :=
  data.orders.filterMap (fun o =>
    let vs := collect_order_vars vdict o.order_id
    if vs = [] then none else some (Constraint.exactly_one vs))

/-- Workload-times-variable terms consuming one process capacity of one
factory period, over all orders (capacity.add_capacity_constraint inner
loop). -/
def capacity_terms (data : APSInputData) (vdict : VariableDict) (f : Factory)
    (p : CapacityPeriod) (process_name : String) : List (Int × Var) :=
  data.orders.filterMap (fun o =>
    match dictGet? process_name o.total_process_capacity with
    | none => none
    | some base =>
      match var_lookup vdict o.order_id f.factory_id p.start_date with
      | none => none
      | some v => some (actual_workload base (get_efficiency_for_order o f), v))

/-- Embeds capacity.add_capacity_constraint: per factory, period and
process, the consumed workload is bounded by the process capacity. -/
def add_capacity_constraint (data : APSInputData) (vdict : VariableDict) :
    List Constraint :=
  data.factories.flatMap (fun f =>
    f.capacity_periods.flatMap (fun p =>
      p.capacity_by_process.filterMap (fun pc =>
        let ts := capacity_terms data vdict f p pc.1
        if ts = [] then none else some (Constraint.lin ⟨ts, .le, pc.2, none⟩))))

/-- Embeds the per-(order, factory) body of
material_lead_time.add_material_lead_time_constraint. A region missing
from the transport map makes Python build timedelta(days=float(inf)),
which raises OverflowError. -/
def material_cons_for_factory (data : APSInputData) (o : Order) (fid : String)
    (pd : List (Int × Var)) : Except PyError (List Constraint) :=
  match dictGet? fid data.factory_map with
  | none => .error .keyError
  | some f =>
    match dictGet? f.region o.material_transportation_to_region_lead_time with
    | none => .error .overflowError
    | some transport_lt =>
      let earliest := data.base_date +
        (o.material_purchasing_lead_time + transport_lt + o.production_lead_time)
      .ok (pd.filterMap (fun pv =>
        if pv.1 < earliest then some (Constraint.lin ⟨[(1, pv.2)], .eq, 0, none⟩) else none))

/-- Loop of the material builder over the factories of one order. -/
def material_cons_factories (data : APSInputData) (o : Order) :
    List (String × List (Int × Var)) → Except PyError (List Constraint)
  | [] => .ok []
  | fp :: rest =>
    match material_cons_for_factory data o fp.1 fp.2 with
    | .error e => .error e
    | .ok cs =>
      match material_cons_factories data o rest with
      | .error e => .error e
      | .ok cs2 => .ok (cs ++ cs2)

/-- Embeds material_lead_time.add_material_lead_time_constraint over the
whole variable dict. -/
def add_material_lead_time_constraint (data : APSInputData) :
    VariableDict → Except PyError (List Constraint)
  | [] => .ok []
  | ofd :: rest =>
    match dictGet? ofd.1 data.order_map with
    | none => .error .keyError
    | some o =>
      match material_cons_factories data o ofd.2 with
      | .error e => .error e
      | .ok cs =>
        match add_material_lead_time_constraint data rest with
        | .error e => .error e
        | .ok cs2 => .ok (cs ++ cs2)

/-- Period end dates per factory and period start, as tardiness_penalty
precomputes them. -/
def period_end_date_map (factories : List Factory) : List (String × List (Int × Int)) :=
  factories.foldl
    (fun m f =>
      dictInsert f.factory_id
        (f.capacity_periods.foldl (fun pm p => dictInsert p.start_date p.end_date pm) []) m) []

/-- End date of the period a variable refers to, raising KeyError like the
Python dict indexing when absent. -/
def period_end_for (em : List (String × List (Int × Int))) (fid : String) (ps : Int) :
    Except PyError Int :=
  match dictGet? fid em with
  | none => .error .keyError
  | some pm =>
    match dictGet? ps pm with
    | none => .error .keyError
    | some e => .ok e

/-- Constraints is_tardy >= x over the vdict of one order whose period
ends after the due date (inner loops of add_tardiness_penalty_objective). -/
def tardiness_cons_for_order (em : List (String × List (Int × Int))) (o : Order) :
    List (String × List (Int × Var)) → Except PyError (List Constraint)
  | [] => .ok []
  | fp :: rest =>
    match tardiness_cons_periods em o fp.1 fp.2 with
    | .error e => .error e
    | .ok cs =>
      match tardiness_cons_for_order em o rest with
      | .error e => .error e
      | .ok cs2 => .ok (cs ++ cs2)
where
  tardiness_cons_periods (em : List (String × List (Int × Int))) (o : Order) (fid : String) :
      List (Int × Var) → Except PyError (List Constraint)
    | [] => .ok []
    | pv :: rest =>
      match period_end_for em fid pv.1 with
      | .error e => .error e
      | .ok endd =>
        match tardiness_cons_periods em o fid rest with
        | .error e => .error e
        | .ok cs =>
          if o.due_date < endd then
            .ok (Constraint.lin ⟨[(1, Var.is_tardy o.order_id), (-1, pv.2)], .ge, 0, none⟩ :: cs)
          else .ok cs

/-- Loop of the tardiness builder over all orders, collecting the
is_tardy coupling constraints. -/
def tardiness_cons_all (em : List (String × List (Int × Int))) (vdict : VariableDict) :
    List Order → Except PyError (List Constraint)
  | [] => .ok []
  | o :: rest =>
    match (match dictGet? o.order_id vdict with
           | none => Except.ok ([] : List Constraint)
           | some fd => tardiness_cons_for_order em o fd) with
    | .error e => .error e
    | .ok cs =>
      match tardiness_cons_all em vdict rest with
      | .error e => .error e
      | .ok cs2 => .ok (cs ++ cs2)

/-- Orders with order_type = 1, as the firm branch of the tardiness
builder counts them. -/
def firm_orders (data : APSInputData) : List Order :=
  data.orders.filter (fun o => decide (o.order_type = 1))

/-- Orders with order_type different from 1 (forecast branch). -/
def forecast_orders (data : APSInputData) : List Order :=
  data.orders.filter (fun o => decide (¬ o.order_type = 1))

/-- The weighted firm/forecast rate terms assembled at the end of
add_tardiness_penalty_objective; an empty subset contributes no term. -/
def tardiness_rate_terms (data : APSInputData) : List LinExpr :=
  (if 0 < (firm_orders data).length then
    [LinExpr.smul (firm_tardy_weight data.settings)
      (LinExpr.smul (1 / ((firm_orders data).length : ℚ))
        (LinExpr.sumVars ((firm_orders data).map (fun o => Var.is_tardy o.order_id))))]
  else []) ++
  (if 0 < (forecast_orders data).length then
    [LinExpr.smul (forecast_tardy_weight data.settings)
      (LinExpr.smul (1 / ((forecast_orders data).length : ℚ))
        (LinExpr.sumVars ((forecast_orders data).map (fun o => Var.is_tardy o.order_id))))]
  else [])

/-- Embeds tardiness_penalty.add_tardiness_penalty_objective: the coupling
constraints plus the weighted firm/forecast tardiness-rate expression,
None when both subsets are empty. -/
def add_tardiness_penalty_objective (data : APSInputData) (vdict : VariableDict) :
    Except PyError (List Constraint × Option LinExpr) :=
  match tardiness_cons_all (period_end_date_map data.factories) vdict data.orders with
  | .error e => .error e
  | .ok cs =>
    if tardiness_rate_terms data = [] then .ok (cs, none)
    else .ok (cs, some (LinExpr.listSum (tardiness_rate_terms data)))

/-- Period end dates in days since base_date, as just_in_time precomputes
them. -/
def period_end_days_map (data : APSInputData) : List (String × List (Int × Int)) :=
  data.factories.foldl
    (fun m f =>
      dictInsert f.factory_id
        (f.capacity_periods.foldl
          (fun pm p => dictInsert p.start_date (p.end_date - data.base_date) pm) []) m) []

/-- Completion-day terms of one order (just_in_time step 3), raising
KeyError on a dangling factory or period reference. -/
def jit_completion_terms (em : List (String × List (Int × Int))) :
    List (String × List (Int × Var)) → Except PyError (List (Int × Var))
  | [] => .ok []
  | fp :: rest =>
    match jit_completion_periods em fp.1 fp.2 with
    | .error e => .error e
    | .ok ts =>
      match jit_completion_terms em rest with
      | .error e => .error e
      | .ok ts2 => .ok (ts ++ ts2)
where
  jit_completion_periods (em : List (String × List (Int × Int))) (fid : String) :
      List (Int × Var) → Except PyError (List (Int × Var))
    | [] => .ok []
    | pv :: rest =>
      match period_end_for em fid pv.1 with
      | .error e => .error e
      | .ok days =>
        match jit_completion_periods em fid rest with
        | .error e => .error e
        | .ok ts => .ok ((days, pv.2) :: ts)

/-- Per-order constraints of the JIT builder: either pin both deviation
vdict to 0, or link them to the planned completion day. -/
def jit_cons_for_order (data : APSInputData) (em : List (String × List (Int × Int)))
    (vdict : VariableDict) (o : Order) : Except PyError (List Constraint) :=
  match (match dictGet? o.order_id vdict with
         | none => Except.ok ([] : List (Int × Var))
         | some fd => jit_completion_terms em fd) with
  | .error e => .error e
  | .ok ts =>
    if ts = [] then
      .ok [Constraint.lin ⟨[(1, Var.earliness_days o.order_id)], .eq, 0, none⟩,
           Constraint.lin ⟨[(1, Var.tardiness_days o.order_id)], .eq, 0, none⟩]
    else
      .ok [Constraint.lin ⟨ts ++ [(-1, Var.tardiness_days o.order_id),
             (1, Var.earliness_days o.order_id)], .eq, o.due_date - data.base_date, none⟩]

/-- Loop of the JIT builder over all orders. -/
def jit_cons_all (data : APSInputData) (em : List (String × List (Int × Int)))
    (vdict : VariableDict) : List Order → Except PyError (List Constraint)
  | [] => .ok []
  | o :: rest =>
    match jit_cons_for_order data em vdict o with
    | .error e => .error e
    | .ok cs =>
      match jit_cons_all data em vdict rest with
      | .error e => .error e
      | .ok cs2 => .ok (cs ++ cs2)

/-- The weighted max-deviation rate expression returned by
add_jit_deviation_objective. -/
def jit_rate_expr (data : APSInputData) : LinExpr :=
  LinExpr.add
    (LinExpr.smul (earliness_weight data.settings)
      (LinExpr.smul (1 / (allowed_earliness_deviation_days data.settings : ℚ))
        (LinExpr.ofVar Var.max_earliness_days)))
    (LinExpr.smul (lateness_weight data.settings)
      (LinExpr.smul (1 / (allowed_tardiness_deviation_days data.settings : ℚ))
        (LinExpr.ofVar Var.max_tardiness_days)))

/-- Embeds just_in_time.add_jit_deviation_objective: deviation constraints,
the two AddMaxEquality couplings, and the weighted max-deviation rate;
None when there are no orders. -/
def add_jit_deviation_objective (data : APSInputData) (vdict : VariableDict) :
    Except PyError (List Constraint × Option LinExpr) :=
  match jit_cons_all data (period_end_days_map data) vdict data.orders with
  | .error e => .error e
  | .ok cs =>
    if data.orders = [] then .ok (cs, none)
    else
      .ok (cs ++
        [Constraint.max_equality Var.max_earliness_days
            (data.orders.map (fun o => Var.earliness_days o.order_id)),
         Constraint.max_equality Var.max_tardiness_days
            (data.orders.map (fun o => Var.tardiness_days o.order_id))],
        some (jit_rate_expr data))

/-- Ratio scale of workload_balance. -/
def SCALING_FACTOR : Int := 1000

/-- Workload terms of one (factory, period) cell of the balance objective,
over all orders having a variable there; a missing total-base-workload
entry raises KeyError. -/
def balance_terms (data : APSInputData) (vdict : VariableDict) (f : Factory) (ps : Int) :
    List Order → Except PyError (List (Int × Var))
  | [] => .ok []
  | o :: rest =>
    match var_lookup vdict o.order_id f.factory_id ps with
    | none => balance_terms data vdict f ps rest
    | some v =>
      match dictGet? o.order_id data.order_total_base_workload with
      | none => .error .keyError
      | some bw =>
        match balance_terms data vdict f ps rest with
        | .error e => .error e
        | .ok ts => .ok ((actual_workload bw (get_efficiency_for_order o f), v) :: ts)

/-- Constraints the balance objective adds for one (factory, period) cell
with positive total capacity and a nonempty workload expression. -/
def balance_cell_cons (fid : String) (ps : Int) (cap : Int) (ts : List (Int × Var)) :
    List Constraint :=
  [Constraint.lin ⟨ts, .gt, 0, some (Var.is_used fid ps, true)⟩,
   Constraint.lin ⟨ts, .eq, 0, some (Var.is_used fid ps, false)⟩,
   Constraint.lin ⟨(cap, Var.max_load_ratio_scaled) ::
       ts.map (fun t => (-SCALING_FACTOR * t.1, t.2)), .ge, 0, none⟩,
   Constraint.lin ⟨(cap, Var.min_load_ratio_scaled) ::
       ts.map (fun t => (-SCALING_FACTOR * t.1, t.2)), .le, 0,
     some (Var.is_used fid ps, true)⟩]

/-- Loop of the balance builder over the capacity periods of one factory. -/
def balance_cons_periods (data : APSInputData) (vdict : VariableDict) (f : Factory) :
    List (Int × Int) → Except PyError (List Constraint)
  | [] => .ok []
  | pc :: rest =>
    match balance_cons_periods data vdict f rest with
    | .error e => .error e
    | .ok csRest =>
      if pc.2 = 0 then .ok csRest
      else
        match balance_terms data vdict f pc.1 data.orders with
        | .error e => .error e
        | .ok ts =>
          if ts = [] then .ok csRest
          else .ok (balance_cell_cons f.factory_id pc.1 pc.2 ts ++ csRest)

/-- Loop of the balance builder over all factories; a factory missing from
the aggregated capacity map raises KeyError. -/
def balance_cons_factories (data : APSInputData) (vdict : VariableDict) :
    List Factory → Except PyError (List Constraint)
  | [] => .ok []
  | f :: rest =>
    match dictGet? f.factory_id data.factory_total_capacity_by_period with
    | none => .error .keyError
    | some pm =>
      match balance_cons_periods data vdict f pm with
      | .error e => .error e
      | .ok cs =>
        match balance_cons_factories data vdict rest with
        | .error e => .error e
        | .ok cs2 => .ok (cs ++ cs2)

/-- The blended imbalance cost 0.5 (max - min) + 0.5 max returned by
add_workload_balance_objective. -/
def balance_cost_expr : LinExpr :=
  LinExpr.add
    (LinExpr.smul (1 / 2) (LinExpr.add (LinExpr.ofVar Var.max_load_ratio_scaled)
      (LinExpr.smul (-1) (LinExpr.ofVar Var.min_load_ratio_scaled))))
    (LinExpr.smul (1 / 2) (LinExpr.ofVar Var.max_load_ratio_scaled))

/-- Embeds workload_balance.add_workload_balance_objective: the min/max
couplings plus the blended imbalance cost. -/
def add_workload_balance_objective (data : APSInputData) (vdict : VariableDict) :
    Except PyError (List Constraint × LinExpr) :=
  match balance_cons_factories data vdict data.factories with
  | .error e => .error e
  | .ok cs =>
    .ok (Constraint.lin ⟨[(1, Var.min_load_ratio_scaled), (-1, Var.max_load_ratio_scaled)],
           .le, 0, none⟩ :: cs,
      balance_cost_expr)

/-- The tardiness branch of the combined objective: active only for a
positive weight. -/
def combined_term1 (data : APSInputData) (vdict : VariableDict) :
    Except PyError (List Constraint × Option LinExpr) :=
  if 0 < w_tardiness data.settings then add_tardiness_penalty_objective data vdict
  else .ok ([], none)

/-- The JIT branch of the combined objective. -/
def combined_term2 (data : APSInputData) (vdict : VariableDict) :
    Except PyError (List Constraint × Option LinExpr) :=
  if 0 < w_jit_deviation data.settings then add_jit_deviation_objective data vdict
  else .ok ([], none)

/-- The workload-balance branch of the combined objective. -/
def combined_term3 (data : APSInputData) (vdict : VariableDict) :
    Except PyError (List Constraint × Option LinExpr) :=
  if 0 < w_workload_balance data.settings then
    match add_workload_balance_objective data vdict with
    | .error e => .error e
    | .ok ce => .ok (ce.1, some ce.2)
  else .ok ([], none)

/-- Scaling applied to the tardiness term: weight times the
count-to-percentage factor 1 / total_orders. -/
def scale1 (data : APSInputData) (e : LinExpr) : LinExpr :=
  LinExpr.smul (1 / (data.orders.length : ℚ)) (LinExpr.smul (w_tardiness data.settings) e)

/-- Scaling applied to the JIT term: weight times
1 / (allowed_deviation_days * total_orders). -/
def scale2 (data : APSInputData) (e : LinExpr) : LinExpr :=
  LinExpr.smul (1 / ((allowed_deviation_days data.settings : ℚ) * (data.orders.length : ℚ)))
    (LinExpr.smul (w_jit_deviation data.settings) e)

/-- Scaling applied to the balance term: weight times 1 / SCALING_FACTOR. -/
def scale3 (data : APSInputData) (e : LinExpr) : LinExpr :=
  LinExpr.smul (1 / (SCALING_FACTOR : ℚ)) (LinExpr.smul (w_workload_balance data.settings) e)

/-- Embeds combined_objective.set_combined_objective: each activated
sub-objective term is scaled by its weight and an extra to-percentage
factor, then summed into the minimized expression. -/
def set_combined_objective (data : APSInputData) (vdict : VariableDict) :
    Except PyError (List Constraint × Option LinExpr) :=
  if data.orders.length = 0 then .ok ([], none)
  else
    match combined_term1 data vdict with
    | .error e => .error e
    | .ok ct1 =>
      match combined_term2 data vdict with
      | .error e => .error e
      | .ok ct2 =>
        match combined_term3 data vdict with
        | .error e => .error e
        | .ok ct3 =>
          if (ct1.2.map (scale1 data)).toList ++ (ct2.2.map (scale2 data)).toList ++
              (ct3.2.map (scale3 data)).toList = [] then
            .ok (ct1.1 ++ ct2.1 ++ ct3.1, none)
          else
            .ok (ct1.1 ++ ct2.1 ++ ct3.1, some (LinExpr.listSum
              ((ct1.2.map (scale1 data)).toList ++ (ct2.2.map (scale2 data)).toList ++
               (ct3.2.map (scale3 data)).toList)))

/-- Meaning of a comparison operator over integers. -/
def cmp_holds (c : LinCmp) (lhs rhs : Int) : Prop :=
  match c with
  | .le => lhs ≤ rhs
  | .ge => rhs ≤ lhs
  | .eq => lhs = rhs
  | .gt => rhs < lhs

/-- Value of a linear term list under an integer assignment. -/
def lin_value (σ : Var → Int) (ts : List (Int × Var)) : Int :=
  (ts.map (fun t => t.1 * σ t.2)).sum

/-- Satisfaction of a single model constraint by an integer assignment.
AddExactlyOne means the boolean variables sum to one; an enforcement
literal conditions the linear comparison on its polarity. -/
def satisfies_con (σ : Var → Int) : Constraint → Prop
  | .lin c =>
    match c.enforce with
    | none => cmp_holds c.cmp (lin_value σ c.terms) c.bound
    | some vb => σ vb.1 = (if vb.2 then 1 else 0) → cmp_holds c.cmp (lin_value σ c.terms) c.bound
  | .exactly_one vs => (vs.map σ).sum = 1
  | .max_equality t vs => σ t = (vs.map σ).foldl max 0

/-- Top-level names defined by core/store_result.py. -/
def store_result_module_defs : List String :=
  ["ScheduleResultItem", "calculate_and_log_kpis", "save_results_to_csv",
   "process_and_log_results"]

/-- Names core/runner.py imports from core/store_result.py. -/
def runner_imports_from_store_result : List String := ["process_and_save_results"]

/-- Resolution of the from-import statement of core/runner.py against the
names store_result actually defines; an unresolved name is an ImportError
raised while the module loads. -/
def import_core_runner : Except PyError Unit :=
  if runner_imports_from_store_result.all (fun n => store_result_module_defs.contains n) then
    .ok ()
  else .error .importError

/-- The end-to-end driver: main.py imports core.runner at module load,
then APSRunner.run starts with the DATA stage (process_data). Reaching
the preprocessed input requires the import to succeed first. -/
def run_aps_pipeline (factories : List Factory) (orders : List Order) (settings : Settings) :
    Except PyError APSInputData :=
  match import_core_runner with
  | .error e => .error e
  | .ok _ => .ok (process_data factories orders settings)

/-- The per-process consumption terms exactly as the specification words
them: floor(base_workload / efficiency) per consuming order with a
variable at the cell, to be compared with capacity_terms. -/
def floor_capacity_terms (data : APSInputData) (vdict : VariableDict) (f : Factory)
    (p : CapacityPeriod) (pname : String) : List (Int × Var) :=
  data.orders.filterMap (fun o =>
    match (dictGet? pname o.total_process_capacity : Option Int) with
    | none => none
    | some base =>
      match var_lookup vdict o.order_id f.factory_id p.start_date with
      | none => none
      | some v => some (⌊(base : ℚ) / get_efficiency_for_order o f⌋, v))

/-! ### Concrete inputs used by witnesses and counterexamples -/

def sewName : String := "sew"

def cutName : String := "cut"

def ptShirt : String := "shirt"

def custA : String := "ACME"

def styleA : String := "S1"

def regionChina : String := "CHINA"

def regionIndia : String := "INDIA"

def regionVietnam : String := "VIETNAM"

def fid1 : String := "F1"

def fid2 : String := "F2"

def oid1 : String := "O1"

def oid2 : String := "O2"

/-- Name runner.py tries to import from store_result. -/
def process_and_save_results_name : String := "process_and_save_results"

/-- A settings record with base date 0 and no optional sections. -/
def cset0 : Settings := ⟨0, none, none, none⟩

/-- Duplicate-id factories for the preprocessing claim. -/
def cf10a : Factory := ⟨fid1, regionChina, [], [⟨15, 28, [(sewName, 5000)]⟩]⟩

def cf10b : Factory := ⟨fid1, regionIndia, [], []⟩

/-- Factory with one period offering sew capacity. -/
def cF1 : Factory :=
  ⟨fid1, regionChina, [(ptShirt, [⟨0, 999, 1 / 2⟩])], [⟨15, 28, [(sewName, 5000)]⟩]⟩

/-- Order whose transport map lacks the CHINA region of cF1. -/
def cO4 : Order :=
  ⟨oid1, custA, ptShirt, styleA, 100, 40, 2, [(regionVietnam, 3)], 1,
   [(sewName, 100)], [fid1], 1, none⟩

/-- Preprocessed input for the missing-region scenario. -/
def cdata4 : APSInputData := process_data [cF1] [cO4] cset0

/-- The variable dict created for the missing-region scenario. -/
def cvd4 : VariableDict := [(oid1, [(fid1, [(15, Var.x oid1 fid1 15)])])]

/-- Order with CHINA transport lead time and a long purchasing lead time,
making the single period infeasible. -/
def cO3 : Order :=
  ⟨oid1, custA, ptShirt, styleA, 100, 40, 20, [(regionChina, 3)], 1,
   [(sewName, 100)], [fid1], 1, none⟩

/-- Preprocessed input for the lead-time scenario. -/
def cdata3 : APSInputData := process_data [cF1] [cO3] cset0

/-- The variable dict of the lead-time scenario. -/
def cvd3 : VariableDict := [(oid1, [(fid1, [(15, Var.x oid1 fid1 15)])])]

/-- Constraints the material builder emits on the lead-time scenario. -/
def c3cs : List Constraint := [Constraint.lin ⟨[(1, Var.x oid1 fid1 15)], .eq, 0, none⟩]

/-- The factory_id pinned by an order lock, if any. -/
def pinned_factory (o : Order) : Option String :=
  match o.fixed_assignment with
  | none => none
  | some fa => fa.1

/-- Order locked to factory F1 with a period date 20 inside [15, 28]. -/
def cO6 : Order :=
  ⟨oid1, custA, ptShirt, styleA, 100, 40, 2, [(regionChina, 3)], 1,
   [(sewName, 100)], [fid1], 1, some (some fid1, some 20)⟩

/-- Preprocessed input for the lock-snapping scenario. -/
def cdata6 : APSInputData := process_data [cF1] [cO6] cset0

/-- Variable dict the registry creates for the lock-snapping scenario. -/
def cvd6 : VariableDict := [(oid1, [(fid1, [(15, Var.x oid1 fid1 15)])])]

/-- Hard lock constraints created for the lock-snapping scenario. -/
def ccs6 : List Constraint := [Constraint.lin ⟨[(1, Var.x oid1 fid1 15)], .eq, 1, none⟩]

/-- A second factory, not in the eligibility list of cO7. -/
def cF2 : Factory := ⟨fid2, regionChina, [], [⟨15, 28, [(sewName, 3000)]⟩]⟩

/-- Order eligible only at F1 but locked to factory F2. -/
def cO7 : Order :=
  ⟨oid1, custA, ptShirt, styleA, 100, 40, 2, [(regionChina, 3)], 1,
   [(sewName, 100)], [fid1], 1, some (some fid2, none)⟩

/-- Preprocessed input for the ineligible-lock scenario. -/
def cdata7 : APSInputData := process_data [cF1, cF2] [cO7] cset0

/-- Variable dict the registry creates for the ineligible-lock scenario:
the variable lives at F2 although F2 is not eligible. -/
def cvd7 : VariableDict := [(oid1, [(fid2, [(15, Var.x oid1 fid2 15)])])]

/-- Tardiness rate exactly as the claim words it, evaluated under a
valuation: firm weight times firm tardy share plus forecast weight times
forecast tardy share, empty subsets contributing 0. -/
def tardiness_rate_formula (data : APSInputData) (σ : Var → ℚ) : ℚ :=
  (if 0 < (firm_orders data).length then
    firm_tardy_weight data.settings *
      (((firm_orders data).map (fun o => σ (Var.is_tardy o.order_id))).sum /
        ((firm_orders data).length : ℚ))
  else 0) +
  (if 0 < (forecast_orders data).length then
    forecast_tardy_weight data.settings *
      (((forecast_orders data).map (fun o => σ (Var.is_tardy o.order_id))).sum /
        ((forecast_orders data).length : ℚ))
  else 0)

/-- JIT deviation rate as the spec words it. -/
def jit_rate_formula (data : APSInputData) (σ : Var → ℚ) : ℚ :=
  earliness_weight data.settings *
      (σ Var.max_earliness_days / (allowed_earliness_deviation_days data.settings : ℚ)) +
    lateness_weight data.settings *
      (σ Var.max_tardiness_days / (allowed_tardiness_deviation_days data.settings : ℚ))

/-- Balance cost as the spec words it. -/
def balance_cost_formula (σ : Var → ℚ) : ℚ :=
  1 / 2 * (σ Var.max_load_ratio_scaled - σ Var.min_load_ratio_scaled) +
    1 / 2 * σ Var.max_load_ratio_scaled

/-- The composite objective as amended: each active sub-rate is scaled by
its weight AND an extra to-percentage normalizer (1/N for tardiness,
1/(allowed_deviation_days N) for JIT, 1/SCALING_FACTOR for balance). -/
def combined_objective_formula (data : APSInputData) (σ : Var → ℚ) : ℚ :=
  (if 0 < w_tardiness data.settings then
    w_tardiness data.settings * tardiness_rate_formula data σ *
      (1 / (data.orders.length : ℚ))
  else 0) +
  (if 0 < w_jit_deviation data.settings then
    w_jit_deviation data.settings * jit_rate_formula data σ *
      (1 / ((allowed_deviation_days data.settings : ℚ) * (data.orders.length : ℚ)))
  else 0) +
  (if 0 < w_workload_balance data.settings then
    w_workload_balance data.settings * balance_cost_formula σ * (1 / (SCALING_FACTOR : ℚ))
  else 0)

/-- Objective weights of the two-firm-orders scenario: only tardiness,
with integer weight 1. -/
def cw8 : ObjectiveWeights := ⟨some 1, none, none⟩

/-- Settings of the two-firm-orders scenario. -/
def cset8 : Settings := ⟨0, some cw8, none, none⟩

/-- First firm order of the objective scenario. -/
def cO8a : Order :=
  ⟨oid1, custA, ptShirt, styleA, 100, 40, 2, [(regionChina, 3)], 1,
   [(sewName, 100)], [fid1], 1, none⟩

/-- Second firm order of the objective scenario. -/
def cO8b : Order :=
  ⟨oid2, custA, ptShirt, styleA, 100, 40, 2, [(regionChina, 3)], 1,
   [(sewName, 100)], [fid1], 1, none⟩

/-- Preprocessed input of the objective scenario (two firm orders). -/
def cdata8 : APSInputData := process_data [cF1] [cO8a, cO8b] cset8

/-- The minimized expression the combined objective emits on the
objective scenario with an empty variable dict. -/
def ce8 : LinExpr :=
  LinExpr.listSum [scale1 cdata8 (LinExpr.listSum (tardiness_rate_terms cdata8))]

/-- Evaluation of an optional sub-objective term after scaling, 0 when
absent. -/
def scaled_opt_eval (σ : Var → ℚ) (f : LinExpr → LinExpr) : Option LinExpr → ℚ
  | none => 0
  | some e2 => (f e2).eval σ

/-- Coefficient of a variable in an optional scaled sub-objective term. -/
def scaled_opt_coeff (v : Var) (f : LinExpr → LinExpr) : Option LinExpr → ℚ
  | none => 0
  | some e2 => coeffOf (f e2) v

/-! ### Helper lemmas and claim theorems -/

theorem dictGet_insert_self {K V : Type} [DecidableEq K] (k : K) (v : V) (l : List (K × V)) :
    dictGet? k (dictInsert k v l) = some v := by
  induction l with
  | nil => simp [dictGet?, dictInsert]
  | cons kv rest ih =>
    by_cases h : kv.1 = k
    · simp [dictInsert, h, dictGet?]
    · simp [dictInsert, h, dictGet?, ih]

theorem dictGet_insert_ne {K V : Type} [DecidableEq K] {k k2 : K} (v : V) (l : List (K × V))
    (h : k2 ≠ k) : dictGet? k2 (dictInsert k v l) = dictGet? k2 l := by
  have hne : ¬ k = k2 := fun hh => h hh.symm
  induction l with
  | nil => simp [dictGet?, dictInsert, hne]
  | cons kv rest ih =>
    by_cases hk : kv.1 = k
    · subst hk
      simp [dictInsert, dictGet?, hne]
    · simp only [dictInsert, hk, if_false]
      by_cases h2 : kv.1 = k2
      · simp [dictGet?, h2]
      · simp [dictGet?, h2, ih]

theorem mem_dictInsert {K V : Type} [DecidableEq K] {k : K} {v : V} {l : List (K × V)}
    {p : K × V} (h : p ∈ dictInsert k v l) : p = (k, v) ∨ p ∈ l := by
  induction l with
  | nil => simpa [dictInsert] using h
  | cons kv rest ih =>
    by_cases hk : kv.1 = k
    · simp only [dictInsert, hk, if_true, List.mem_cons] at h
      rcases h with h | h
      · exact Or.inl h
      · exact Or.inr (List.mem_cons_of_mem _ h)
    · simp only [dictInsert, hk, if_false, List.mem_cons] at h
      rcases h with h | h
      · exact Or.inr (by simp [h])
      · rcases ih h with h2 | h2
        · exact Or.inl h2
        · exact Or.inr (List.mem_cons_of_mem _ h2)

theorem dictGet_mem {K V : Type} [DecidableEq K] {k : K} {v : V} :
    ∀ {l : List (K × V)}, dictGet? k l = some v → (k, v) ∈ l := by
  intro l
  induction l with
  | nil => intro h; simp [dictGet?] at h
  | cons kv rest ih =>
    intro h
    by_cases hk : kv.1 = k
    · simp only [dictGet?, hk, if_true, Option.some.injEq] at h
      have h2 : (k, v) = kv := by rw [← hk, ← h]
      rw [List.mem_cons]
      exact Or.inl h2
    · simp only [dictGet?, hk, if_false] at h
      exact List.mem_cons_of_mem _ (ih h)

/-- A helper describing the last element of a cons cell. -/
theorem getLast?_cons_eq {α : Type} (a : α) (l : List α) :
    (a :: l).getLast? = match l.getLast? with
      | none => some a
      | some b => some b := by
  induction l generalizing a with
  | nil => simp
  | cons b rest ih =>
    rw [List.getLast?_cons_cons, ih b]
    cases h : rest.getLast? <;> simp [h, ih]

/-- Folding dict inserts over a list: the final value bound to a key is
the one coming from the last list element with that key. -/
theorem dictGet_foldl_insert {α K V : Type} [DecidableEq K] (key : α → K) (val : α → V) :
    ∀ (l : List α) (init : List (K × V)) (k : K),
      dictGet? k (l.foldl (fun m x => dictInsert (key x) (val x) m) init) =
        match (l.filter (fun x => decide (key x = k))).getLast? with
        | some x => some (val x)
        | none => dictGet? k init := by
  intro l
  induction l with
  | nil => intro init k; rfl
  | cons x rest ih =>
    intro init k
    by_cases hk : key x = k
    · subst hk
      rw [List.foldl_cons, ih, List.filter_cons_of_pos (by simp), getLast?_cons_eq]
      cases h : (rest.filter (fun y => decide (key y = key x))).getLast? with
      | none => simp [dictGet_insert_self]
      | some y => simp
    · rw [List.foldl_cons, ih, List.filter_cons_of_neg (by simp [hk])]
      cases h : (rest.filter (fun y => decide (key y = k))).getLast? with
      | none => simp [dictGet_insert_ne (val x) init (fun hh => hk hh.symm)]
      | some y => simp

/-- Membership in a fold of dict inserts comes either from the initial
dict or from one of the inserted (key, value) pairs. -/
theorem mem_foldl_dictInsert {α K V : Type} [DecidableEq K] (key : α → K) (val : α → V) :
    ∀ (l : List α) (init : List (K × V)) (p : K × V),
      p ∈ l.foldl (fun m x => dictInsert (key x) (val x) m) init →
      p ∈ init ∨ ∃ x ∈ l, p = (key x, val x) := by
  intro l
  induction l with
  | nil => intro init p h; exact Or.inl (by simpa using h)
  | cons x rest ih =>
    intro init p h
    simp only [List.foldl_cons] at h
    rcases ih _ _ h with h2 | h2
    · rcases mem_dictInsert h2 with h3 | h3
      · exact Or.inr ⟨x, List.mem_cons_self x rest, h3⟩
      · exact Or.inl h3
    · rcases h2 with ⟨y, hy, hp⟩
      exact Or.inr ⟨y, List.mem_cons_of_mem _ hy, hp⟩

theorem eval_zero (σ : Var → ℚ) : LinExpr.zero.eval σ = 0 := by
  simp [LinExpr.zero, LinExpr.eval]

theorem eval_ofVar (σ : Var → ℚ) (v : Var) : (LinExpr.ofVar v).eval σ = σ v := by
  simp [LinExpr.ofVar, LinExpr.eval]

theorem sum_map_one_coeff (σ : Var → ℚ) : ∀ vs : List Var,
    ((vs.map (fun v => ((1 : ℚ), v))).map (fun cv => cv.1 * σ cv.2)).sum = (vs.map σ).sum := by
  intro vs
  induction vs with
  | nil => simp
  | cons w rest ih =>
    simp only [List.map_cons, List.sum_cons]
    rw [ih]
    ring

theorem eval_sumVars (σ : Var → ℚ) (vs : List Var) :
    (LinExpr.sumVars vs).eval σ = (vs.map σ).sum := by
  unfold LinExpr.sumVars LinExpr.eval
  simp only [sum_map_one_coeff]
  ring

theorem eval_add (σ : Var → ℚ) (a b : LinExpr) :
    (a.add b).eval σ = a.eval σ + b.eval σ := by
  simp [LinExpr.add, LinExpr.eval]
  ring

theorem sum_map_smul_coeff (σ : Var → ℚ) (c : ℚ) : ∀ l : List (ℚ × Var),
    ((l.map (fun cv => (c * cv.1, cv.2))).map (fun cv => cv.1 * σ cv.2)).sum
      = c * (l.map (fun cv => cv.1 * σ cv.2)).sum := by
  intro l
  induction l with
  | nil => simp
  | cons cv rest ih =>
    simp only [List.map_cons, List.sum_cons, ih]
    ring

theorem eval_smul (σ : Var → ℚ) (c : ℚ) (e : LinExpr) :
    (e.smul c).eval σ = c * e.eval σ := by
  unfold LinExpr.smul LinExpr.eval
  simp only [sum_map_smul_coeff]
  ring

theorem eval_listSum (σ : Var → ℚ) (l : List LinExpr) :
    (LinExpr.listSum l).eval σ = (l.map (fun e => e.eval σ)).sum := by
  have h : ∀ (l2 : List LinExpr) (acc : LinExpr),
      (l2.foldl LinExpr.add acc).eval σ = acc.eval σ + (l2.map (fun e => e.eval σ)).sum := by
    intro l2
    induction l2 with
    | nil => intro acc; simp
    | cons e rest ih =>
      intro acc
      simp only [List.foldl_cons, List.map_cons, List.sum_cons]
      rw [ih, eval_add]
      ring
  rw [LinExpr.listSum, h, eval_zero]
  ring

theorem coeffOf_zero (v : Var) : coeffOf LinExpr.zero v = 0 := by
  simp [LinExpr.zero, coeffOf]

theorem coeffOf_ofVar (v w : Var) :
    coeffOf (LinExpr.ofVar w) v = if w = v then 1 else 0 := by
  by_cases h : w = v <;> simp [LinExpr.ofVar, coeffOf, h]

theorem coeffOf_add (a b : LinExpr) (v : Var) :
    coeffOf (a.add b) v = coeffOf a v + coeffOf b v := by
  simp [LinExpr.add, coeffOf]

theorem filter_map_smul_coeff (c : ℚ) (v : Var) : ∀ l : List (ℚ × Var),
    (((l.map (fun cv => (c * cv.1, cv.2))).filter (fun cv => decide (cv.2 = v))).map
        (fun cv => cv.1)).sum
      = c * ((l.filter (fun cv => decide (cv.2 = v))).map (fun cv => cv.1)).sum := by
  intro l
  induction l with
  | nil => simp
  | cons cv rest ih =>
    by_cases h : cv.2 = v
    · simp only [List.map_cons, List.filter_cons, h, decide_True, if_true, List.sum_cons]
      rw [ih]
      ring
    · simp only [List.map_cons, List.filter_cons, h, decide_False]
      simpa using ih

theorem coeffOf_smul (c : ℚ) (e : LinExpr) (v : Var) :
    coeffOf (e.smul c) v = c * coeffOf e v := by
  unfold coeffOf LinExpr.smul
  exact filter_map_smul_coeff c v e.coeffs

theorem coeffOf_listSum (l : List LinExpr) (v : Var) :
    coeffOf (LinExpr.listSum l) v = (l.map (fun e => coeffOf e v)).sum := by
  have h : ∀ (l2 : List LinExpr) (acc : LinExpr),
      coeffOf (l2.foldl LinExpr.add acc) v = coeffOf acc v + (l2.map (fun e => coeffOf e v)).sum := by
    intro l2
    induction l2 with
    | nil => intro acc; simp
    | cons e rest ih =>
      intro acc
      simp only [List.foldl_cons, List.map_cons, List.sum_cons]
      rw [ih, coeffOf_add]
      ring
  rw [LinExpr.listSum, h, coeffOf_zero]
  ring

theorem filter_map_one_coeff (v : Var) : ∀ vs : List Var,
    (((vs.map (fun w => ((1 : ℚ), w))).filter (fun cv => decide (cv.2 = v))).map
        (fun cv => cv.1)).sum
      = ((vs.filter (fun w => decide (w = v))).length : ℚ) := by
  intro vs
  induction vs with
  | nil => simp
  | cons w rest ih =>
    by_cases h : w = v
    · simp only [List.map_cons, List.filter_cons, h, decide_True, if_true, List.sum_cons,
        List.length_cons]
      rw [ih]
      push_cast
      ring
    · simp only [List.map_cons, List.filter_cons, h, decide_False]
      simpa using ih

theorem coeffOf_sumVars (vs : List Var) (v : Var) :
    coeffOf (LinExpr.sumVars vs) v = ((vs.filter (fun w => decide (w = v))).length : ℚ) := by
  unfold coeffOf LinExpr.sumVars
  exact filter_map_one_coeff v vs

/-- C1: core/runner.py imports the name process_and_save_results from
core/store_result.py, but that module only defines
process_and_log_results; so the driver module never loads and for every
input the pipeline fails with ImportError before the DATA stage. -/
theorem C1_runner_import_always_fails :
    process_and_save_results_name ∉ store_result_module_defs ∧
      ∀ (factories : List Factory) (orders : List Order) (settings : Settings),
        run_aps_pipeline factories orders settings = .error .importError := by
  constructor
  · decide
  · intro factories orders settings
    rfl

/-- C10 counterexample: two factories share factory_id F1 and
preprocessing does not fail; it silently builds a factory map in which
the later record has overwritten the earlier one. -/
theorem C10_counterexample_duplicate_ids :
    dictGet? fid1 (process_data [cf10a, cf10b] [] cset0).factory_map = some cf10b ∧
      cf10b ≠ cf10a := by
  constructor
  · rfl
  · decide

/-- C10 amended: process_data never raises on duplicate ids; the
factory_by_id and order_by_id maps bind each id to the LAST input record
carrying it (later records overwrite earlier ones), with orders stored
after eligibility validation. -/
theorem C10_amended_last_record_wins (factories : List Factory) (orders : List Order)
    (settings : Settings) (k : String) :
    dictGet? k (process_data factories orders settings).factory_map =
        (factories.filter (fun f => decide (f.factory_id = k))).getLast? ∧
      dictGet? k (process_data factories orders settings).order_map =
        ((orders.map (validateOrder (buildFactoryMap factories))).filter
          (fun o => decide (o.order_id = k))).getLast? := by
  constructor
  · show dictGet? k (buildFactoryMap factories) = _
    rw [buildFactoryMap, dictGet_foldl_insert (fun f : Factory => f.factory_id) (fun f => f)]
    cases h : (factories.filter (fun f => decide (f.factory_id = k))).getLast? <;>
      simp [dictGet?]
  · show dictGet? k (buildOrderMap (orders.map (validateOrder (buildFactoryMap factories)))) = _
    rw [buildOrderMap, dictGet_foldl_insert (fun o : Order => o.order_id) (fun o => o)]
    cases h : ((orders.map (validateOrder (buildFactoryMap factories))).filter
        (fun o => decide (o.order_id = k))).getLast? <;>
      simp [dictGet?]

/-- C4: on the concrete missing-region input the variable registry
succeeds, but the material-lead-time builder raises OverflowError (Python
computes timedelta(days=float(inf))) instead of completing and zeroing
the variables of the factory. -/
theorem C4_missing_region_overflow :
    create_variables cdata4 = .ok (cvd4, []) ∧
      add_material_lead_time_constraint cdata4 cvd4 = .error .overflowError := by
  constructor
  · rfl
  · rfl

theorem count_sel_eq_sum (σ : Var → Int) : ∀ vs : List Var,
    (∀ v ∈ vs, σ v = 0 ∨ σ v = 1) →
    ((vs.filter (fun v => decide (σ v = 1))).length : Int) = (vs.map σ).sum := by
  intro vs
  induction vs with
  | nil => intro h; simp
  | cons v rest ih =>
    intro h
    have hrest := ih (fun w hw => h w (List.mem_cons_of_mem _ hw))
    rcases h v (List.mem_cons_self v rest) with h0 | h1
    · have : ¬ σ v = 1 := by omega
      simp only [List.filter_cons, List.map_cons, List.sum_cons, this, decide_False, h0]
      simpa using hrest
    · simp only [List.filter_cons, List.map_cons, List.sum_cons, h1, decide_True, if_true,
        List.length_cons]
      push_cast
      omega

/-- C5: the uniqueness builder adds one AddExactlyOne over exactly the
variables of every order that has at least one; every constraint it adds
arises this way (so an order with no variables contributes none); and in
any 0/1 solution of an AddExactlyOne, exactly one listed variable is 1. -/
theorem C5_order_unique_assign (data : APSInputData) (vdict : VariableDict) :
    (∀ o ∈ data.orders, collect_order_vars vdict o.order_id ≠ [] →
        Constraint.exactly_one (collect_order_vars vdict o.order_id) ∈
          add_order_unique_assign_constraint data vdict) ∧
    (∀ c ∈ add_order_unique_assign_constraint data vdict,
        ∃ o ∈ data.orders, collect_order_vars vdict o.order_id ≠ [] ∧
          c = Constraint.exactly_one (collect_order_vars vdict o.order_id)) ∧
    (∀ (σ : Var → Int) (vs : List Var), satisfies_con σ (Constraint.exactly_one vs) →
        (∀ v ∈ vs, σ v = 0 ∨ σ v = 1) →
        (vs.filter (fun v => decide (σ v = 1))).length = 1) := by
  refine ⟨?_, ?_, ?_⟩
  · intro o ho hne
    unfold add_order_unique_assign_constraint
    rw [List.mem_filterMap]
    exact ⟨o, ho, by simp [hne]⟩
  · intro c hc
    unfold add_order_unique_assign_constraint at hc
    rw [List.mem_filterMap] at hc
    rcases hc with ⟨o, ho, hfo⟩
    by_cases hne : collect_order_vars vdict o.order_id = []
    · simp [hne] at hfo
    · simp only [hne, if_false, Option.some.injEq] at hfo
      exact ⟨o, ho, hne, hfo.symm⟩
  · intro σ vs hsat h01
    have hsum : (vs.map σ).sum = 1 := hsat
    have := count_sel_eq_sum σ vs h01
    omega

/-- C5 witness: on the concrete input the order has one variable and the
builder emits the exactly-one constraint over it. -/
theorem C5_order_unique_assign_witness :
    Constraint.exactly_one [Var.x oid1 fid1 15] ∈
      add_order_unique_assign_constraint cdata4 cvd4 := by
  have heq : collect_order_vars cvd4 (validateOrder (buildFactoryMap [cF1]) cO4).order_id =
      [Var.x oid1 fid1 15] := by decide
  have h := (C5_order_unique_assign cdata4 cvd4).1 (validateOrder (buildFactoryMap [cF1]) cO4)
      (by decide) (by rw [heq]; decide)
  rw [heq] at h
  exact h

theorem get_eff_pos (o : Order) (f : Factory)
    (h : ∀ pe ∈ f.production_efficiencies, ∀ t ∈ pe.2, 0 < t.efficiency) :
    0 < get_efficiency_for_order o f := by
  unfold get_efficiency_for_order
  split
  · norm_num
  · rename_i tiers hpt
    split
    · rename_i t hft
      exact h _ (dictGet_mem hpt) t (List.mem_of_find?_eq_some hft)
    · norm_num

theorem actual_workload_eq_floor (base : Int) (eff : ℚ) (hb : 0 ≤ base) (he : 0 < eff) :
    actual_workload base eff = ⌊(base : ℚ) / eff⌋ := by
  unfold actual_workload int_trunc
  have hq : 0 ≤ (base : ℚ) / eff := div_nonneg (by exact_mod_cast hb) (le_of_lt he)
  simp [hq]

theorem filterMap_congr_mem {α β : Type} (f g : α → Option β) :
    ∀ l : List α, (∀ a ∈ l, f a = g a) → l.filterMap f = l.filterMap g := by
  intro l
  induction l with
  | nil => intro h; rfl
  | cons a rest ih =>
    intro h
    rw [List.filterMap_cons, List.filterMap_cons, h a (List.mem_cons_self a rest),
      ih (fun b hb => h b (List.mem_cons_of_mem _ hb))]

/-- C2: for every factory, period and process with at least one consuming
order that has a variable there, the model contains the constraint
bounding the sum of floor(base_workload / efficiency) times the decision
variables by the process capacity; efficiency defaults to 1 when the
product type or quantity has no tier. -/
theorem C2_capacity_constraint (data : APSInputData) (vdict : VariableDict)
    (f : Factory) (p : CapacityPeriod) (pname : String) (cap : Int)
    (hf : f ∈ data.factories) (hp : p ∈ f.capacity_periods)
    (hpc : (pname, cap) ∈ p.capacity_by_process)
    (heff : ∀ pe ∈ f.production_efficiencies, ∀ t ∈ pe.2, 0 < t.efficiency)
    (hwork : ∀ o ∈ data.orders, ∀ pc ∈ o.total_process_capacity, 0 ≤ pc.2)
    (hne : capacity_terms data vdict f p pname ≠ []) :
    Constraint.lin ⟨floor_capacity_terms data vdict f p pname, .le, cap, none⟩ ∈
      add_capacity_constraint data vdict := by
  have hterms : floor_capacity_terms data vdict f p pname = capacity_terms data vdict f p pname := by
    unfold floor_capacity_terms capacity_terms
    apply filterMap_congr_mem
    intro o ho
    cases hb : dictGet? pname o.total_process_capacity with
    | none => rfl
    | some base =>
      cases hv : var_lookup vdict o.order_id f.factory_id p.start_date with
      | none => rfl
      | some v =>
        have h0 : 0 ≤ base := hwork o ho (pname, base) (dictGet_mem hb)
        have hpos := get_eff_pos o f heff
        simp [actual_workload_eq_floor base _ h0 hpos]
  rw [hterms]
  unfold add_capacity_constraint
  rw [List.mem_flatMap]
  refine ⟨f, hf, ?_⟩
  rw [List.mem_flatMap]
  refine ⟨p, hp, ?_⟩
  rw [List.mem_filterMap]
  exact ⟨(pname, cap), hpc, by simp [hne]⟩

/-- C2 witness: on the concrete input the tier efficiency is 1/2, the sew
workload 100 becomes floor(100 / (1/2)) = 200, and the capacity
constraint on (F1, period 15, sew) is in the model. -/
theorem C2_capacity_constraint_witness :
    Constraint.lin ⟨floor_capacity_terms cdata4 cvd4 cF1 ⟨15, 28, [(sewName, 5000)]⟩ sewName,
      .le, 5000, none⟩ ∈ add_capacity_constraint cdata4 cvd4 := by
  have hne : capacity_terms cdata4 cvd4 cF1 ⟨15, 28, [(sewName, 5000)]⟩ sewName ≠ [] := by
    have he : capacity_terms cdata4 cvd4 cF1 ⟨15, 28, [(sewName, 5000)]⟩ sewName =
        [(actual_workload 100
            (get_efficiency_for_order (validateOrder (buildFactoryMap [cF1]) cO4) cF1),
          Var.x oid1 fid1 15)] := rfl
    rw [he]
    simp
  exact C2_capacity_constraint cdata4 cvd4 cF1 ⟨15, 28, [(sewName, 5000)]⟩ sewName 5000
    (List.mem_singleton_self cF1) (List.mem_singleton_self _) (List.mem_singleton_self _)
    (by
      intro pe hpe t ht2
      simp only [cF1, List.mem_singleton] at hpe
      subst hpe
      simp only [List.mem_singleton] at ht2
      subst ht2
      norm_num)
    (by
      intro o hoo pc hpc2
      rw [show cdata4.orders = [validateOrder (buildFactoryMap [cF1]) cO4] from rfl] at hoo
      rcases List.mem_singleton.mp hoo with rfl
      rw [show (validateOrder (buildFactoryMap [cF1]) cO4).total_process_capacity =
          [(sewName, 100)] from rfl] at hpc2
      rcases List.mem_singleton.mp hpc2 with rfl
      norm_num)
    hne

theorem material_factory_char (data : APSInputData) (o : Order) (fid : String)
    (pd : List (Int × Var)) (f : Factory) (tlt : Int)
    (hf : dictGet? fid data.factory_map = some f)
    (ht : dictGet? f.region o.material_transportation_to_region_lead_time = some tlt) :
    material_cons_for_factory data o fid pd = .ok (pd.filterMap (fun pv =>
      if pv.1 < data.base_date +
          (o.material_purchasing_lead_time + tlt + o.production_lead_time) then
        some (Constraint.lin ⟨[(1, pv.2)], .eq, 0, none⟩)
      else none)) := by
  unfold material_cons_for_factory
  simp only [hf, ht]

theorem material_fact_ok (data : APSInputData) (o : Order) :
    ∀ (fd : List (String × List (Int × Var))) (cs : List Constraint),
      material_cons_factories data o fd = .ok cs →
      ∀ fp ∈ fd, ∃ csf, material_cons_for_factory data o fp.1 fp.2 = .ok csf ∧
        ∀ c ∈ csf, c ∈ cs := by
  intro fd
  induction fd with
  | nil => intro cs h fp hfp; simp at hfp
  | cons fp2 rest ih =>
    intro cs h fp hfp
    unfold material_cons_factories at h
    cases h1 : material_cons_for_factory data o fp2.1 fp2.2 with
    | error e => simp only [h1] at h; exact Except.noConfusion h
    | ok cs1 =>
      simp only [h1] at h
      cases h2 : material_cons_factories data o rest with
      | error e => simp only [h2] at h; exact Except.noConfusion h
      | ok cs2 =>
        simp only [h2, Except.ok.injEq] at h
        subst h
        rcases List.mem_cons.mp hfp with he | hm
        · subst he
          exact ⟨cs1, h1, fun c hc => List.mem_append_left _ hc⟩
        · rcases ih cs2 h2 fp hm with ⟨csf, hcsf, hsub⟩
          exact ⟨csf, hcsf, fun c hc => List.mem_append_right _ (hsub c hc)⟩

theorem material_order_ok (data : APSInputData) :
    ∀ (vd : VariableDict) (cs : List Constraint),
      add_material_lead_time_constraint data vd = .ok cs →
      ∀ ofd ∈ vd, ∃ o, dictGet? ofd.1 data.order_map = some o ∧
        ∃ cso, material_cons_factories data o ofd.2 = .ok cso ∧ ∀ c ∈ cso, c ∈ cs := by
  intro vd
  induction vd with
  | nil => intro cs h ofd hofd; simp at hofd
  | cons ofd2 rest ih =>
    intro cs h ofd hofd
    unfold add_material_lead_time_constraint at h
    cases ho : dictGet? ofd2.1 data.order_map with
    | none => simp only [ho] at h; exact Except.noConfusion h
    | some o =>
      simp only [ho] at h
      cases h1 : material_cons_factories data o ofd2.2 with
      | error e => simp only [h1] at h; exact Except.noConfusion h
      | ok cs1 =>
        simp only [h1] at h
        cases h2 : add_material_lead_time_constraint data rest with
        | error e => simp only [h2] at h; exact Except.noConfusion h
        | ok cs2 =>
          simp only [h2, Except.ok.injEq] at h
          subst h
          rcases List.mem_cons.mp hofd with he | hm
          · subst he
            exact ⟨o, ho, cs1, h1, fun c hc => List.mem_append_left _ hc⟩
          · rcases ih cs2 h2 ofd hm with ⟨o2, ho2, cso, hcso, hsub⟩
            exact ⟨o2, ho2, cso, hcso, fun c hc => List.mem_append_right _ (hsub c hc)⟩

/-- C3: whenever the material builder completes, every variable of an
order at a factory with a listed region whose period starts before
base_date + purchasing + transport + production lead times gets a forced
x = 0 constraint; consequently any solution of the emitted constraints
assigns such an order only to periods at or after that threshold. -/
theorem C3_material_lead_time (data : APSInputData) (vd : VariableDict) (cs : List Constraint)
    (oid : String) (fd : List (String × List (Int × Var))) (fid : String)
    (pd : List (Int × Var)) (ps : Int) (v : Var) (o : Order) (f : Factory) (tlt : Int)
    (hok : add_material_lead_time_constraint data vd = .ok cs)
    (h1 : (oid, fd) ∈ vd) (h2 : (fid, pd) ∈ fd) (h3 : (ps, v) ∈ pd)
    (ho : dictGet? oid data.order_map = some o)
    (hf : dictGet? fid data.factory_map = some f)
    (ht : dictGet? f.region o.material_transportation_to_region_lead_time = some tlt) :
    (ps < data.base_date +
        (o.material_purchasing_lead_time + tlt + o.production_lead_time) →
      Constraint.lin ⟨[(1, v)], .eq, 0, none⟩ ∈ cs) ∧
    (∀ σ : Var → Int, (∀ c ∈ cs, satisfies_con σ c) → σ v = 1 →
      data.base_date + (o.material_purchasing_lead_time + tlt + o.production_lead_time) ≤ ps) := by
  have hmem : ps < data.base_date +
      (o.material_purchasing_lead_time + tlt + o.production_lead_time) →
      Constraint.lin ⟨[(1, v)], .eq, 0, none⟩ ∈ cs := by
    intro hlt
    rcases material_order_ok data vd cs hok (oid, fd) h1 with ⟨o2, ho2, cso, hcso, hsub⟩
    rw [ho] at ho2
    cases ho2
    rcases material_fact_ok data o fd cso hcso (fid, pd) h2 with ⟨csf, hcsf, hsub2⟩
    rw [material_factory_char data o fid pd f tlt hf ht] at hcsf
    simp only [Except.ok.injEq] at hcsf
    subst hcsf
    apply hsub
    apply hsub2
    rw [List.mem_filterMap]
    exact ⟨(ps, v), h3, by simp [hlt]⟩
  refine ⟨hmem, ?_⟩
  intro σ hsat hv1
  by_contra hcon
  push_neg at hcon
  have hc := hsat _ (hmem hcon)
  have : σ v = 0 := by
    have h4 : lin_value σ [(1, v)] = σ v := by simp [lin_value]
    simpa [satisfies_con, cmp_holds, h4] using hc
  omega

/-- C3 witness: with base 0, purchasing 20, transport 3, production 1 the
threshold is 24, the period starting at 15 is infeasible, the builder
succeeds and the forced zero is emitted; the solution bound follows. -/
theorem C3_material_lead_time_witness :
    Constraint.lin ⟨[(1, Var.x oid1 fid1 15)], .eq, 0, none⟩ ∈ c3cs := by
  have h := C3_material_lead_time cdata3 cvd3 c3cs oid1
      [(fid1, [(15, Var.x oid1 fid1 15)])] fid1 [(15, Var.x oid1 fid1 15)] 15
      (Var.x oid1 fid1 15) (validateOrder (buildFactoryMap [cF1]) cO3) cF1 3
      (by rfl) (by decide) (by decide) (by decide) (by rfl) (by rfl) (by rfl)
  exact h.1 (by decide)

theorem create_vars_go_cs_mono (fm : List (String × Factory)) :
    ∀ (orders : List Order) (x : VariableDict) (cs : List Constraint) (vars : VariableDict)
      (csf : List Constraint),
      create_variables_go fm orders x cs = .ok (vars, csf) → ∀ c ∈ cs, c ∈ csf := by
  intro orders
  induction orders with
  | nil =>
    intro x cs vars csf h c hc
    unfold create_variables_go at h
    simp only [Except.ok.injEq, Prod.mk.injEq] at h
    rw [← h.2]
    exact hc
  | cons o rest ih =>
    intro x cs vars csf h c hc
    unfold create_variables_go at h
    cases hco : createVarsForOrder fm o with
    | error e => simp only [hco] at h; exact Except.noConfusion h
    | ok ic =>
      obtain ⟨inner, cs2⟩ := ic
      simp only [hco] at h
      exact ih _ _ _ _ h c (List.mem_append_left _ hc)

theorem create_vars_go_preserve (fm : List (String × Factory)) :
    ∀ (orders : List Order) (x : VariableDict) (cs : List Constraint) (vars : VariableDict)
      (csf : List Constraint) (k : String),
      create_variables_go fm orders x cs = .ok (vars, csf) →
      (∀ o ∈ orders, o.order_id ≠ k) →
      dictGet? k vars = dictGet? k x := by
  intro orders
  induction orders with
  | nil =>
    intro x cs vars csf k h hne
    unfold create_variables_go at h
    simp only [Except.ok.injEq, Prod.mk.injEq] at h
    rw [← h.1]
  | cons o rest ih =>
    intro x cs vars csf k h hne
    unfold create_variables_go at h
    cases hco : createVarsForOrder fm o with
    | error e => simp only [hco] at h; exact Except.noConfusion h
    | ok ic =>
      obtain ⟨inner, cs2⟩ := ic
      simp only [hco] at h
      rw [ih _ _ _ _ _ h (fun o2 h2 => hne o2 (List.mem_cons_of_mem _ h2)),
        dictGet_insert_ne _ _ (fun hh => hne o (List.mem_cons_self o rest) hh.symm)]

theorem create_vars_go_lookup (fm : List (String × Factory)) :
    ∀ (orders : List Order) (x : VariableDict) (cs : List Constraint) (vars : VariableDict)
      (csf : List Constraint) (o : Order),
      create_variables_go fm orders x cs = .ok (vars, csf) →
      o ∈ orders →
      (orders.map (fun o2 => o2.order_id)).Nodup →
      ∃ inner cs2, createVarsForOrder fm o = .ok (inner, cs2) ∧
        dictGet? o.order_id vars = some inner ∧ ∀ c ∈ cs2, c ∈ csf := by
  intro orders
  induction orders with
  | nil => intro x cs vars csf o h hmem hnd; simp at hmem
  | cons o2 rest ih =>
    intro x cs vars csf o h hmem hnd
    unfold create_variables_go at h
    cases hco : createVarsForOrder fm o2 with
    | error e => simp only [hco] at h; exact Except.noConfusion h
    | ok ic =>
      obtain ⟨inner, cs2⟩ := ic
      simp only [hco] at h
      simp only [List.map_cons, List.nodup_cons] at hnd
      rcases List.mem_cons.mp hmem with he | hm
      · subst he
        refine ⟨inner, cs2, hco, ?_, ?_⟩
        · have hne2 : ∀ o3 ∈ rest, o3.order_id ≠ o.order_id := by
            intro o3 h3 heq
            exact hnd.1 (List.mem_map.mpr ⟨o3, h3, heq⟩)
          rw [create_vars_go_preserve fm rest _ _ _ _ _ h hne2, dictGet_insert_self]
        · intro c hc
          exact create_vars_go_cs_mono fm rest _ _ _ _ h c (List.mem_append_right _ hc)
      · exact ih _ _ _ _ o h hm hnd.2

theorem find_snapped_some (d : Int) :
    ∀ (fs : List Factory) (s : Int), find_snapped_period_start_date d fs = some s →
      ∃ f ∈ fs, ∃ p ∈ f.capacity_periods,
        p.start_date ≤ d ∧ d ≤ p.end_date ∧ p.start_date = s := by
  intro fs
  induction fs with
  | nil => intro s h; exact Option.noConfusion h
  | cons f rest ih =>
    intro s h
    unfold find_snapped_period_start_date at h
    cases hfind : f.capacity_periods.find? (fun p => decide (p.start_date ≤ d) &&
        decide (d ≤ p.end_date)) with
    | some p =>
      simp only [hfind, Option.some.injEq] at h
      have hp := List.find?_some hfind
      simp only [Bool.and_eq_true, decide_eq_true_eq] at hp
      exact ⟨f, List.mem_cons_self f rest, p, List.mem_of_find?_eq_some hfind, hp.1, hp.2, h⟩
    | none =>
      simp only [hfind] at h
      rcases ih s h with ⟨f2, hf2, hrest⟩
      exact ⟨f2, List.mem_cons_of_mem _ hf2, hrest⟩

theorem find_snapped_none (d : Int) :
    ∀ fs : List Factory, find_snapped_period_start_date d fs = none ↔
      ∀ f ∈ fs, ∀ p ∈ f.capacity_periods, ¬ (p.start_date ≤ d ∧ d ≤ p.end_date) := by
  intro fs
  induction fs with
  | nil => simp [find_snapped_period_start_date]
  | cons f rest ih =>
    constructor
    · intro h f2 hf2 p hp
      unfold find_snapped_period_start_date at h
      cases hfind : f.capacity_periods.find? (fun p => decide (p.start_date ≤ d) &&
          decide (d ≤ p.end_date)) with
      | some p2 => simp only [hfind] at h; exact Option.noConfusion h
      | none =>
        simp only [hfind] at h
        rcases List.mem_cons.mp hf2 with he | hm
        · subst he
          have := List.find?_eq_none.mp hfind p hp
          simpa using this
        · exact (ih.mp h) f2 hm p hp
    · intro h
      unfold find_snapped_period_start_date
      have hfind : f.capacity_periods.find? (fun p => decide (p.start_date ≤ d) &&
          decide (d ≤ p.end_date)) = none := by
        apply List.find?_eq_none.mpr
        intro p hp
        have := h f (List.mem_cons_self f rest) p hp
        simpa using this
      rw [hfind]
      exact ih.mpr (fun f2 h2 p hp => h f2 (List.mem_cons_of_mem _ h2) p hp)

theorem mem_period_dict (oid fid : String) (ps : List CapacityPeriod) {k : Int} {v : Var}
    (h : (k, v) ∈ period_dict oid fid ps) : ∃ p ∈ ps, k = p.start_date := by
  unfold period_dict at h
  rcases mem_foldl_dictInsert (fun p : CapacityPeriod => p.start_date)
      (fun p => Var.x oid fid p.start_date) ps [] _ h with h2 | h2
  · simp at h2
  · rcases h2 with ⟨p, hp, heq⟩
    exact ⟨p, hp, congrArg Prod.fst heq⟩

theorem mem_build_locked_dict (oid : String) (fts : List Factory) (snapped : Option Int)
    {fid : String} {pd : List (Int × Var)}
    (h : (fid, pd) ∈ build_locked_dict oid fts snapped) :
    ∃ f ∈ fts, fid = f.factory_id ∧
      pd = period_dict oid f.factory_id (locked_periods f snapped) := by
  unfold build_locked_dict at h
  rcases mem_foldl_dictInsert (fun f : Factory => f.factory_id)
      (fun f => period_dict oid f.factory_id (locked_periods f snapped)) fts [] _ h with h2 | h2
  · simp at h2
  · rcases h2 with ⟨f, hf, heq⟩
    simp only [Prod.mk.injEq] at heq
    exact ⟨f, hf, heq.1, heq.2⟩

theorem mem_build_unlocked_aux (fm : List (String × Factory)) (o : Order) :
    ∀ (elig : List String) (acc : List (String × List (Int × Var)))
      (p : String × List (Int × Var)),
      p ∈ elig.foldl (fun acc fid =>
        match dictGet? fid fm with
        | none => acc
        | some f => dictInsert fid (period_dict o.order_id fid f.capacity_periods) acc) acc →
      p ∈ acc ∨ p.1 ∈ elig := by
  intro elig
  induction elig with
  | nil => intro acc p h; exact Or.inl (by simpa using h)
  | cons fid rest ih =>
    intro acc p h
    simp only [List.foldl_cons] at h
    cases hg : dictGet? fid fm with
    | none =>
      simp only [hg] at h
      rcases ih _ _ h with h2 | h2
      · exact Or.inl h2
      · exact Or.inr (List.mem_cons_of_mem _ h2)
    | some f =>
      simp only [hg] at h
      rcases ih _ _ h with h2 | h2
      · rcases mem_dictInsert h2 with h3 | h3
        · exact Or.inr (by rw [h3]; exact List.mem_cons_self fid rest)
        · exact Or.inl h3
      · exact Or.inr (List.mem_cons_of_mem _ h2)

theorem mem_build_unlocked (fm : List (String × Factory)) (o : Order)
    {p : String × List (Int × Var)} (h : p ∈ build_unlocked fm o) :
    p.1 ∈ o.eligible_factories := by
  unfold build_unlocked at h
  rcases mem_build_unlocked_aux fm o o.eligible_factories [] p h with h2 | h2
  · simp at h2
  · exact h2

theorem pin_con_mem (oid : String) (fts : List Factory) (s : Int) (f : Factory)
    (p : CapacityPeriod) (hf : f ∈ fts) (hp : p ∈ f.capacity_periods)
    (hs : p.start_date = s) :
    Constraint.lin ⟨[(1, Var.x oid f.factory_id p.start_date)], .eq, 1, none⟩ ∈
      build_locked_cons oid fts (some s) true := by
  unfold build_locked_cons
  simp only [if_true]
  rw [List.mem_flatMap]
  refine ⟨f, hf, ?_⟩
  rw [List.mem_map]
  refine ⟨p, ?_, rfl⟩
  unfold locked_periods
  exact List.mem_filter.mpr ⟨hp, by simp [hs]⟩

/-- C6: for an order locked with a period_start_date, when some period of
the restricted factory set contains the date, creation snaps the date to
that period's start, restricts the order's variables to periods with that
start, and with a pinned factory also adds the hard x = 1 constraint;
when no period contains the date the order gets no variables at all. -/
theorem C6_lock_snapping (data : APSInputData) (vars : VariableDict) (cs : List Constraint)
    (o : Order) (lfid : Option String) (d : Int) (ftc : List Factory)
    (hok : create_variables data = .ok (vars, cs))
    (hmem : o ∈ data.orders)
    (hnd : (data.orders.map (fun o2 => o2.order_id)).Nodup)
    (hcons : ∀ kf ∈ data.factory_map, (Prod.snd kf).factory_id = Prod.fst kf)
    (hfa : o.fixed_assignment = some (lfid, some d))
    (hftc : restricted_factories data.factory_map o lfid = .ok ftc) :
    (∀ s, find_snapped_period_start_date d ftc = some s →
      (∃ f ∈ ftc, ∃ p ∈ f.capacity_periods,
          p.start_date ≤ d ∧ d ≤ p.end_date ∧ p.start_date = s) ∧
      (∃ inner, dictGet? o.order_id vars = some inner ∧
          ∀ fp ∈ inner, ∀ pv ∈ (Prod.snd fp : List (Int × Var)), Prod.fst pv = s) ∧
      (∀ fid, lfid = some fid →
          Constraint.lin ⟨[(1, Var.x o.order_id fid s)], .eq, 1, none⟩ ∈ cs)) ∧
    (find_snapped_period_start_date d ftc = none →
      dictGet? o.order_id vars = some [] ∧
      ∀ f ∈ ftc, ∀ p ∈ f.capacity_periods, ¬ (p.start_date ≤ d ∧ d ≤ p.end_date)) := by
  obtain ⟨inner, cs2, hco, hlook, hsub⟩ :=
    create_vars_go_lookup data.factory_map data.orders [] [] vars cs o hok hmem hnd
  constructor
  · intro s hsnap
    have hchar : inner = build_locked_dict o.order_id ftc (some s) ∧
        cs2 = build_locked_cons o.order_id ftc (some s) lfid.isSome := by
      unfold createVarsForOrder at hco
      rw [hfa] at hco
      simp only [hftc, hsnap, Except.ok.injEq, Prod.mk.injEq] at hco
      exact ⟨hco.1.symm, hco.2.symm⟩
    refine ⟨find_snapped_some d ftc s hsnap, ?_, ?_⟩
    · refine ⟨inner, hlook, ?_⟩
      intro fp hfp pv hpv
      obtain ⟨fid, pd⟩ := fp
      rw [hchar.1] at hfp
      rcases mem_build_locked_dict o.order_id ftc (some s) hfp with ⟨f, hf, _, hpd⟩
      obtain ⟨k, v⟩ := pv
      rw [hpd] at hpv
      rcases mem_period_dict o.order_id f.factory_id _ hpv with ⟨p, hpmem, hk⟩
      unfold locked_periods at hpmem
      have := (List.mem_filter.mp hpmem).2
      simp only [decide_eq_true_eq] at this
      simpa [hk] using this
    · intro fid hfid
      subst hfid
      unfold restricted_factories at hftc
      cases hget : dictGet? fid data.factory_map with
      | none => simp only [hget] at hftc; exact Except.noConfusion hftc
      | some f0 =>
        simp only [hget, Except.ok.injEq] at hftc
        rcases find_snapped_some d ftc s hsnap with ⟨f, hf, p, hp, _, _, hps⟩
        rw [← hftc] at hf
        rcases List.mem_singleton.mp hf with rfl
        have hfid0 : f.factory_id = fid := hcons (fid, f) (dictGet_mem hget)
        have hfmem : f ∈ ftc := by rw [← hftc]; exact List.mem_singleton_self f
        have hpin := pin_con_mem o.order_id ftc s f p hfmem hp hps
        rw [hfid0, hps] at hpin
        rw [hchar.2] at hsub
        exact hsub _ hpin
  · intro hsnap
    have hchar : inner = [] := by
      unfold createVarsForOrder at hco
      rw [hfa] at hco
      simp only [hftc, hsnap, Except.ok.injEq, Prod.mk.injEq] at hco
      exact hco.1.symm
    rw [hchar] at hlook
    exact ⟨hlook, (find_snapped_none d ftc).mp hsnap⟩

/-- C6 witness: the locked date 20 snaps to period start 15 of F1, the
order's variables are restricted to that period, and the hard x = 1
constraint is created. -/
theorem C6_lock_snapping_witness :
    Constraint.lin ⟨[(1, Var.x oid1 fid1 15)], .eq, 1, none⟩ ∈ ccs6 := by
  have h := C6_lock_snapping cdata6 cvd6 ccs6 (validateOrder (buildFactoryMap [cF1]) cO6)
      (some fid1) 20 [cF1] rfl (by decide) (by decide)
      (by
        intro kf hkf
        rw [show cdata6.factory_map = [(fid1, cF1)] from rfl] at hkf
        rcases List.mem_singleton.mp hkf with rfl
        rfl)
      rfl rfl
  exact (h.1 15 rfl).2.2 fid1 rfl

/-- C7 counterexample: an order eligible only at F1 but locked to factory
F2 gets its decision variable at F2, which is not in its post-validation
eligible_factories list. -/
theorem C7_counterexample_lock_ignores_eligibility :
    create_variables cdata7 = .ok (cvd7, []) ∧
      dictGet? oid1 cvd7 = some [(fid2, [(15, Var.x oid1 fid2 15)])] ∧
      fid2 ∉ (validateOrder (buildFactoryMap [cF1, cF2]) cO7).eligible_factories := by
  refine ⟨rfl, rfl, ?_⟩
  decide

/-- C7 amended: for every decision variable created for an order whose
lock does not pin a factory_id (including all unlocked orders), the
factory is in the order's eligible_factories list; an order locked to an
explicit factory_id gets variables at that factory with no eligibility
check. -/
theorem C7_amended_eligibility_unpinned (data : APSInputData) (vars : VariableDict)
    (cs : List Constraint) (o : Order) (inner : List (String × List (Int × Var)))
    (hok : create_variables data = .ok (vars, cs))
    (hnd : (data.orders.map (fun o2 => o2.order_id)).Nodup)
    (hcons : ∀ kf ∈ data.factory_map, (Prod.snd kf).factory_id = Prod.fst kf)
    (hmem : o ∈ data.orders)
    (hpin : pinned_factory o = none)
    (hinner : dictGet? o.order_id vars = some inner) :
    ∀ fp ∈ inner, Prod.fst fp ∈ o.eligible_factories := by
  obtain ⟨inner2, cs2, hco, hlook, _⟩ :=
    create_vars_go_lookup data.factory_map data.orders [] [] vars cs o hok hmem hnd
  rw [hinner, Option.some.injEq] at hlook
  subst hlook
  intro fp hfp
  have hrmem : ∀ (snapped : Option Int),
      fp ∈ build_locked_dict o.order_id
        (o.eligible_factories.filterMap (fun fid => dictGet? fid data.factory_map)) snapped →
      Prod.fst fp ∈ o.eligible_factories := by
    intro snapped hfp2
    obtain ⟨fid, pd⟩ := fp
    rcases mem_build_locked_dict o.order_id _ snapped hfp2 with ⟨f, hf, hfid, _⟩
    rcases List.mem_filterMap.mp hf with ⟨fid2, hfid2, hget⟩
    have := hcons (fid2, f) (dictGet_mem hget)
    simp only at this
    rw [hfid, this]
    exact hfid2
  unfold createVarsForOrder at hco
  unfold pinned_factory at hpin
  cases hfa : o.fixed_assignment with
  | none =>
    rw [hfa] at hco
    simp only [Except.ok.injEq, Prod.mk.injEq] at hco
    rw [← hco.1] at hfp
    exact mem_build_unlocked data.factory_map o hfp
  | some fa =>
    rw [hfa] at hpin
    rw [hfa] at hco
    obtain ⟨lfid, ldate⟩ := fa
    simp only at hpin
    subst hpin
    cases ldate with
    | some d =>
      have hr : restricted_factories data.factory_map o none =
          .ok (o.eligible_factories.filterMap (fun fid => dictGet? fid data.factory_map)) := rfl
      simp only [hr] at hco
      cases hsnap : find_snapped_period_start_date d
          (o.eligible_factories.filterMap (fun fid => dictGet? fid data.factory_map)) with
      | none =>
        simp only [hsnap, Except.ok.injEq, Prod.mk.injEq] at hco
        rw [← hco.1] at hfp
        simp at hfp
      | some s =>
        simp only [hsnap, Except.ok.injEq, Prod.mk.injEq] at hco
        rw [← hco.1] at hfp
        exact hrmem (some s) hfp
    | none =>
      have hr : restricted_factories data.factory_map o none =
          .ok (o.eligible_factories.filterMap (fun fid => dictGet? fid data.factory_map)) := rfl
      simp only [hr, Except.ok.injEq, Prod.mk.injEq] at hco
      rw [← hco.1] at hfp
      exact hrmem none hfp

/-- C7 amended witness: the unlocked concrete order only receives
variables at its eligible factory F1. -/
theorem C7_amended_eligibility_witness :
    fid1 ∈ (validateOrder (buildFactoryMap [cF1]) cO4).eligible_factories := by
  have h := C7_amended_eligibility_unpinned cdata4 cvd4 []
      (validateOrder (buildFactoryMap [cF1]) cO4) [(fid1, [(15, Var.x oid1 fid1 15)])]
      rfl (by decide)
      (by
        intro kf hkf
        rw [show cdata4.factory_map = [(fid1, cF1)] from rfl] at hkf
        rcases List.mem_singleton.mp hkf with rfl
        rfl)
      (by decide) rfl rfl
  exact h (fid1, [(15, Var.x oid1 fid1 15)]) (by decide)

theorem firm_or_forecast (data : APSInputData) (hne : data.orders ≠ []) :
    0 < (firm_orders data).length ∨ 0 < (forecast_orders data).length := by
  cases horders : data.orders with
  | nil => exact absurd horders hne
  | cons o rest =>
    have hom : o ∈ data.orders := by rw [horders]; exact List.mem_cons_self o rest
    by_cases h1 : o.order_type = 1
    · exact Or.inl (List.length_pos_of_mem
        (List.mem_filter.mpr ⟨hom, by simp [h1]⟩))
    · exact Or.inr (List.length_pos_of_mem
        (List.mem_filter.mpr ⟨hom, by simp [h1]⟩))

theorem tardiness_terms_ne (data : APSInputData) (hne : data.orders ≠ []) :
    tardiness_rate_terms data ≠ [] := by
  intro hc
  unfold tardiness_rate_terms at hc
  rw [List.append_eq_nil] at hc
  rcases firm_or_forecast data hne with h | h
  · rw [if_pos h] at hc
    exact absurd hc.1 (by simp)
  · rw [if_pos h] at hc
    exact absurd hc.2 (by simp)

theorem tardiness_some (data : APSInputData) (vd : VariableDict) (cs : List Constraint)
    (t : Option LinExpr) (h : add_tardiness_penalty_objective data vd = .ok (cs, t))
    (hne : data.orders ≠ []) :
    t = some (LinExpr.listSum (tardiness_rate_terms data)) := by
  unfold add_tardiness_penalty_objective at h
  cases hca : tardiness_cons_all (period_end_date_map data.factories) vd data.orders with
  | error e => simp only [hca] at h; exact Except.noConfusion h
  | ok cs0 =>
    simp only [hca] at h
    rw [if_neg (tardiness_terms_ne data hne)] at h
    simp only [Except.ok.injEq, Prod.mk.injEq] at h
    exact h.2.symm

theorem tardiness_branch_eval (σ : Var → ℚ) (w : ℚ) (l : List Order) :
    (LinExpr.smul w (LinExpr.smul (1 / (l.length : ℚ))
      (LinExpr.sumVars (l.map (fun o => Var.is_tardy o.order_id))))).eval σ =
      w * (((l.map (fun o => σ (Var.is_tardy o.order_id))).sum / (l.length : ℚ))) := by
  rw [eval_smul, eval_smul, eval_sumVars, List.map_map]
  rw [show (σ ∘ fun o : Order => Var.is_tardy o.order_id) =
      (fun o : Order => σ (Var.is_tardy o.order_id)) from rfl]
  ring

theorem tardiness_expr_eval (data : APSInputData) (σ : Var → ℚ) :
    (LinExpr.listSum (tardiness_rate_terms data)).eval σ = tardiness_rate_formula data σ := by
  unfold tardiness_rate_terms tardiness_rate_formula
  by_cases h1 : 0 < (firm_orders data).length <;>
    by_cases h2 : 0 < (forecast_orders data).length <;>
    simp only [h1, h2, if_true, if_false] <;>
    simp only [eval_listSum, List.map_append, List.map_cons, List.map_nil, List.sum_append,
      List.sum_cons, List.sum_nil, List.nil_append, List.append_nil, tardiness_branch_eval] <;>
    ring

theorem jit_some (data : APSInputData) (vd : VariableDict) (cs : List Constraint)
    (t : Option LinExpr) (h : add_jit_deviation_objective data vd = .ok (cs, t))
    (hne : data.orders ≠ []) : t = some (jit_rate_expr data) := by
  unfold add_jit_deviation_objective at h
  cases hca : jit_cons_all data (period_end_days_map data) vd data.orders with
  | error e => simp only [hca] at h; exact Except.noConfusion h
  | ok cs0 =>
    simp only [hca] at h
    rw [if_neg hne] at h
    simp only [Except.ok.injEq, Prod.mk.injEq] at h
    exact h.2.symm

theorem jit_expr_eval (data : APSInputData) (σ : Var → ℚ) :
    (jit_rate_expr data).eval σ = jit_rate_formula data σ := by
  unfold jit_rate_expr jit_rate_formula
  rw [eval_add, eval_smul, eval_smul, eval_smul, eval_smul, eval_ofVar, eval_ofVar]
  ring

theorem balance_some (data : APSInputData) (vd : VariableDict) (cs : List Constraint)
    (e : LinExpr) (h : add_workload_balance_objective data vd = .ok (cs, e)) :
    e = balance_cost_expr := by
  unfold add_workload_balance_objective at h
  cases hca : balance_cons_factories data vd data.factories with
  | error e2 => simp only [hca] at h; exact Except.noConfusion h
  | ok cs0 =>
    simp only [hca, Except.ok.injEq, Prod.mk.injEq] at h
    exact h.2.symm

theorem balance_expr_eval (σ : Var → ℚ) :
    balance_cost_expr.eval σ = balance_cost_formula σ := by
  unfold balance_cost_expr balance_cost_formula
  rw [eval_add, eval_smul, eval_add, eval_ofVar, eval_smul, eval_ofVar, eval_smul, eval_ofVar]
  ring

theorem eval_opt_toList (σ : Var → ℚ) (t : Option LinExpr) (f : LinExpr → LinExpr) :
    (((t.map f).toList).map (fun e2 => e2.eval σ)).sum = scaled_opt_eval σ f t := by
  cases t with
  | none => rfl
  | some e2 => simp [scaled_opt_eval]

theorem term1_eval (data : APSInputData) (vd : VariableDict) (cs1 : List Constraint)
    (t1 : Option LinExpr) (σ : Var → ℚ)
    (h : combined_term1 data vd = .ok (cs1, t1)) (hne : data.orders ≠ []) :
    scaled_opt_eval σ (scale1 data) t1 =
      (if 0 < w_tardiness data.settings then
        w_tardiness data.settings * tardiness_rate_formula data σ *
          (1 / (data.orders.length : ℚ))
      else 0) := by
  by_cases hwt : 0 < w_tardiness data.settings
  · rw [if_pos hwt]
    unfold combined_term1 at h
    rw [if_pos hwt] at h
    rw [tardiness_some data vd cs1 t1 h hne]
    simp only [scaled_opt_eval]
    unfold scale1
    rw [eval_smul, eval_smul, tardiness_expr_eval]
    ring
  · rw [if_neg hwt]
    unfold combined_term1 at h
    rw [if_neg hwt] at h
    simp only [Except.ok.injEq, Prod.mk.injEq] at h
    rw [← h.2]
    rfl

theorem term2_eval (data : APSInputData) (vd : VariableDict) (cs2 : List Constraint)
    (t2 : Option LinExpr) (σ : Var → ℚ)
    (h : combined_term2 data vd = .ok (cs2, t2)) (hne : data.orders ≠ []) :
    scaled_opt_eval σ (scale2 data) t2 =
      (if 0 < w_jit_deviation data.settings then
        w_jit_deviation data.settings * jit_rate_formula data σ *
          (1 / ((allowed_deviation_days data.settings : ℚ) * (data.orders.length : ℚ)))
      else 0) := by
  by_cases hwj : 0 < w_jit_deviation data.settings
  · rw [if_pos hwj]
    unfold combined_term2 at h
    rw [if_pos hwj] at h
    rw [jit_some data vd cs2 t2 h hne]
    simp only [scaled_opt_eval]
    unfold scale2
    rw [eval_smul, eval_smul, jit_expr_eval]
    ring
  · rw [if_neg hwj]
    unfold combined_term2 at h
    rw [if_neg hwj] at h
    simp only [Except.ok.injEq, Prod.mk.injEq] at h
    rw [← h.2]
    rfl

theorem term3_eval (data : APSInputData) (vd : VariableDict) (cs3 : List Constraint)
    (t3 : Option LinExpr) (σ : Var → ℚ)
    (h : combined_term3 data vd = .ok (cs3, t3)) :
    scaled_opt_eval σ (scale3 data) t3 =
      (if 0 < w_workload_balance data.settings then
        w_workload_balance data.settings * balance_cost_formula σ *
          (1 / (SCALING_FACTOR : ℚ))
      else 0) := by
  by_cases hwb : 0 < w_workload_balance data.settings
  · rw [if_pos hwb]
    unfold combined_term3 at h
    rw [if_pos hwb] at h
    cases hca : add_workload_balance_objective data vd with
    | error e2 => simp only [hca] at h; exact Except.noConfusion h
    | ok ce =>
      simp only [hca, Except.ok.injEq, Prod.mk.injEq] at h
      rw [← h.2]
      rw [balance_some data vd ce.1 ce.2 (by rw [hca])]
      simp only [scaled_opt_eval]
      unfold scale3
      rw [eval_smul, eval_smul, balance_expr_eval]
      ring
  · rw [if_neg hwb]
    unfold combined_term3 at h
    rw [if_neg hwb] at h
    simp only [Except.ok.injEq, Prod.mk.injEq] at h
    rw [← h.2]
    rfl

/-- C8 amended: the minimized composite equals the sum over activated
sub-objectives of weight times sub-rate times an EXTRA normalizer
(1/N for tardiness, 1/(allowed_deviation_days N) for JIT,
1/SCALING_FACTOR for balance); in particular the tardiness contribution
is w_tardiness (firm_w sum/N_firm + forecast_w sum/N_forecast) / N. -/
theorem C8_amended_combined_formula (data : APSInputData) (vd : VariableDict)
    (cs : List Constraint) (e : LinExpr)
    (hok : set_combined_objective data vd = .ok (cs, some e)) (σ : Var → ℚ) :
    e.eval σ = combined_objective_formula data σ := by
  unfold set_combined_objective at hok
  by_cases hn : data.orders.length = 0
  · rw [if_pos hn] at hok
    simp at hok
  · rw [if_neg hn] at hok
    have hne : data.orders ≠ [] := fun hh => hn (by rw [hh]; rfl)
    cases h1 : combined_term1 data vd with
    | error e1 => simp only [h1] at hok; exact Except.noConfusion hok
    | ok ct1 =>
      simp only [h1] at hok
      cases h2 : combined_term2 data vd with
      | error e2 => simp only [h2] at hok; exact Except.noConfusion hok
      | ok ct2 =>
        simp only [h2] at hok
        cases h3 : combined_term3 data vd with
        | error e3 => simp only [h3] at hok; exact Except.noConfusion hok
        | ok ct3 =>
          simp only [h3] at hok
          by_cases hterms : (ct1.2.map (scale1 data)).toList ++
              (ct2.2.map (scale2 data)).toList ++ (ct3.2.map (scale3 data)).toList = []
          · rw [if_pos hterms] at hok
            simp at hok
          · rw [if_neg hterms] at hok
            simp only [Except.ok.injEq, Prod.mk.injEq, Option.some.injEq] at hok
            rw [← hok.2]
            rw [eval_listSum]
            simp only [List.map_append, List.sum_append]
            rw [eval_opt_toList σ ct1.2 (scale1 data), eval_opt_toList σ ct2.2 (scale2 data),
              eval_opt_toList σ ct3.2 (scale3 data)]
            unfold combined_objective_formula
            rw [term1_eval data vd ct1.1 ct1.2 σ (by rw [h1]) hne,
              term2_eval data vd ct2.1 ct2.2 σ (by rw [h2]) hne,
              term3_eval data vd ct3.1 ct3.2 σ (by rw [h3])]

theorem coeff_opt_toList (v : Var) (t : Option LinExpr) (f : LinExpr → LinExpr) :
    (((t.map f).toList).map (fun e2 => coeffOf e2 v)).sum = scaled_opt_coeff v f t := by
  cases t with
  | none => rfl
  | some e2 => simp [scaled_opt_coeff]

theorem filter_id_zero (oid : String) : ∀ l : List Order,
    oid ∉ l.map (fun o2 => o2.order_id) →
    ((l.map (fun o2 => Var.is_tardy o2.order_id)).filter
      (fun w => decide (w = Var.is_tardy oid))).length = 0 := by
  intro l
  induction l with
  | nil => intro h; rfl
  | cons a rest ih =>
    intro h
    simp only [List.map_cons, List.mem_cons, not_or] at h
    rw [List.map_cons, List.filter_cons_of_neg (by
      simp only [decide_eq_true_eq, Var.is_tardy.injEq]
      intro hh
      exact h.1 hh.symm)]
    exact ih h.2

theorem filter_id_one (o : Order) : ∀ l : List Order,
    (l.map (fun o2 => o2.order_id)).Nodup → o ∈ l →
    ((l.map (fun o2 => Var.is_tardy o2.order_id)).filter
      (fun w => decide (w = Var.is_tardy o.order_id))).length = 1 := by
  intro l
  induction l with
  | nil => intro _ hmem; simp at hmem
  | cons a rest ih =>
    intro hnd hmem
    simp only [List.map_cons, List.nodup_cons] at hnd
    rcases List.mem_cons.mp hmem with he | hm
    · subst he
      rw [List.map_cons, List.filter_cons_of_pos (by simp), List.length_cons,
        filter_id_zero o.order_id rest hnd.1]
    · have hne : ¬ a.order_id = o.order_id := by
        intro hh
        exact hnd.1 (by rw [hh]; exact List.mem_map.mpr ⟨o, hm, rfl⟩)
      rw [List.map_cons, List.filter_cons_of_neg (by
        simp only [decide_eq_true_eq, Var.is_tardy.injEq]
        exact hne)]
      exact ih hnd.2 hm

theorem firm_ids_nodup (data : APSInputData)
    (hnd : (data.orders.map (fun o2 => o2.order_id)).Nodup) :
    ((firm_orders data).map (fun o2 => o2.order_id)).Nodup :=
  List.Nodup.sublist (List.Sublist.map _ (List.filter_sublist _)) hnd

theorem not_mem_forecast_ids (data : APSInputData) (o : Order)
    (hnd : (data.orders.map (fun o2 => o2.order_id)).Nodup)
    (hmem : o ∈ data.orders) (htype : o.order_type = 1) :
    o.order_id ∉ (forecast_orders data).map (fun o2 => o2.order_id) := by
  intro hin
  rcases List.mem_map.mp hin with ⟨o2, ho2, heq⟩
  have ho2o : o2 ∈ data.orders := List.mem_of_mem_filter ho2
  have he : o2 = o := List.inj_on_of_nodup_map hnd ho2o hmem heq
  subst he
  have hforecast := (List.mem_filter.mp ho2).2
  simp [htype] at hforecast

theorem tardiness_terms_coeff (data : APSInputData) (o : Order)
    (hnd : (data.orders.map (fun o2 => o2.order_id)).Nodup)
    (hmem : o ∈ data.orders) (htype : o.order_type = 1) :
    coeffOf (LinExpr.listSum (tardiness_rate_terms data)) (Var.is_tardy o.order_id) =
      firm_tardy_weight data.settings * (1 / ((firm_orders data).length : ℚ)) := by
  have hofirm : o ∈ firm_orders data := List.mem_filter.mpr ⟨hmem, by simp [htype]⟩
  have hposf : 0 < (firm_orders data).length := List.length_pos_of_mem hofirm
  have hone := filter_id_one o (firm_orders data) (firm_ids_nodup data hnd) hofirm
  unfold tardiness_rate_terms
  rw [if_pos hposf, coeffOf_listSum]
  by_cases h2 : 0 < (forecast_orders data).length
  · rw [if_pos h2]
    have hzero := filter_id_zero o.order_id (forecast_orders data)
        (not_mem_forecast_ids data o hnd hmem htype)
    simp only [List.map_append, List.map_cons, List.map_nil, List.sum_append, List.sum_cons,
      List.sum_nil, coeffOf_smul, coeffOf_sumVars, hone, hzero]
    push_cast
    ring
  · rw [if_neg h2]
    simp only [List.append_nil, List.map_cons, List.map_nil, List.sum_cons, List.sum_nil,
      coeffOf_smul, coeffOf_sumVars, hone]
    push_cast
    ring

theorem jit_expr_coeff_is_tardy (data : APSInputData) (oid : String) :
    coeffOf (jit_rate_expr data) (Var.is_tardy oid) = 0 := by
  unfold jit_rate_expr
  rw [coeffOf_add, coeffOf_smul, coeffOf_smul, coeffOf_smul, coeffOf_smul,
    coeffOf_ofVar, coeffOf_ofVar]
  simp

theorem balance_expr_coeff_is_tardy (oid : String) :
    coeffOf balance_cost_expr (Var.is_tardy oid) = 0 := by
  unfold balance_cost_expr
  rw [coeffOf_add, coeffOf_smul, coeffOf_add, coeffOf_ofVar, coeffOf_smul, coeffOf_ofVar,
    coeffOf_smul, coeffOf_ofVar]
  simp

theorem term1_coeff (data : APSInputData) (vd : VariableDict) (cs1 : List Constraint)
    (t1 : Option LinExpr) (o : Order)
    (h : combined_term1 data vd = .ok (cs1, t1)) (hne : data.orders ≠ [])
    (hnd : (data.orders.map (fun o2 => o2.order_id)).Nodup)
    (hmem : o ∈ data.orders) (htype : o.order_type = 1) :
    scaled_opt_coeff (Var.is_tardy o.order_id) (scale1 data) t1 =
      (if 0 < w_tardiness data.settings then
        w_tardiness data.settings * firm_tardy_weight data.settings *
          (1 / ((firm_orders data).length : ℚ)) * (1 / (data.orders.length : ℚ))
      else 0) := by
  by_cases hwt : 0 < w_tardiness data.settings
  · rw [if_pos hwt]
    unfold combined_term1 at h
    rw [if_pos hwt] at h
    rw [tardiness_some data vd cs1 t1 h hne]
    simp only [scaled_opt_coeff]
    unfold scale1
    rw [coeffOf_smul, coeffOf_smul, tardiness_terms_coeff data o hnd hmem htype]
    ring
  · rw [if_neg hwt]
    unfold combined_term1 at h
    rw [if_neg hwt] at h
    simp only [Except.ok.injEq, Prod.mk.injEq] at h
    rw [← h.2]
    rfl

theorem term2_coeff (data : APSInputData) (vd : VariableDict) (cs2 : List Constraint)
    (t2 : Option LinExpr) (oid : String)
    (h : combined_term2 data vd = .ok (cs2, t2)) (hne : data.orders ≠ []) :
    scaled_opt_coeff (Var.is_tardy oid) (scale2 data) t2 = 0 := by
  by_cases hwj : 0 < w_jit_deviation data.settings
  · unfold combined_term2 at h
    rw [if_pos hwj] at h
    rw [jit_some data vd cs2 t2 h hne]
    simp only [scaled_opt_coeff]
    unfold scale2
    rw [coeffOf_smul, coeffOf_smul, jit_expr_coeff_is_tardy]
    ring
  · unfold combined_term2 at h
    rw [if_neg hwj] at h
    simp only [Except.ok.injEq, Prod.mk.injEq] at h
    rw [← h.2]
    rfl

theorem term3_coeff (data : APSInputData) (vd : VariableDict) (cs3 : List Constraint)
    (t3 : Option LinExpr) (oid : String)
    (h : combined_term3 data vd = .ok (cs3, t3)) :
    scaled_opt_coeff (Var.is_tardy oid) (scale3 data) t3 = 0 := by
  by_cases hwb : 0 < w_workload_balance data.settings
  · unfold combined_term3 at h
    rw [if_pos hwb] at h
    cases hca : add_workload_balance_objective data vd with
    | error e2 => simp only [hca] at h; exact Except.noConfusion h
    | ok ce =>
      simp only [hca, Except.ok.injEq, Prod.mk.injEq] at h
      rw [← h.2]
      rw [show ce.2 = balance_cost_expr from balance_some data vd ce.1 ce.2 (by rw [hca])]
      simp only [scaled_opt_coeff]
      unfold scale3
      rw [coeffOf_smul, coeffOf_smul, balance_expr_coeff_is_tardy]
      ring
  · unfold combined_term3 at h
    rw [if_neg hwb] at h
    simp only [Except.ok.injEq, Prod.mk.injEq] at h
    rw [← h.2]
    rfl

theorem combined_coeff_firm (data : APSInputData) (vd : VariableDict) (cs : List Constraint)
    (e : LinExpr) (o : Order)
    (hok : set_combined_objective data vd = .ok (cs, some e))
    (hnd : (data.orders.map (fun o2 => o2.order_id)).Nodup)
    (hmem : o ∈ data.orders) (htype : o.order_type = 1) :
    coeffOf e (Var.is_tardy o.order_id) =
      (if 0 < w_tardiness data.settings then
        w_tardiness data.settings * firm_tardy_weight data.settings *
          (1 / ((firm_orders data).length : ℚ)) * (1 / (data.orders.length : ℚ))
      else 0) := by
  unfold set_combined_objective at hok
  by_cases hn : data.orders.length = 0
  · rw [if_pos hn] at hok
    simp at hok
  · rw [if_neg hn] at hok
    have hne : data.orders ≠ [] := fun hh => hn (by rw [hh]; rfl)
    cases h1 : combined_term1 data vd with
    | error e1 => simp only [h1] at hok; exact Except.noConfusion hok
    | ok ct1 =>
      simp only [h1] at hok
      cases h2 : combined_term2 data vd with
      | error e2 => simp only [h2] at hok; exact Except.noConfusion hok
      | ok ct2 =>
        simp only [h2] at hok
        cases h3 : combined_term3 data vd with
        | error e3 => simp only [h3] at hok; exact Except.noConfusion hok
        | ok ct3 =>
          simp only [h3] at hok
          by_cases hterms : (ct1.2.map (scale1 data)).toList ++
              (ct2.2.map (scale2 data)).toList ++ (ct3.2.map (scale3 data)).toList = []
          · rw [if_pos hterms] at hok
            simp at hok
          · rw [if_neg hterms] at hok
            simp only [Except.ok.injEq, Prod.mk.injEq, Option.some.injEq] at hok
            rw [← hok.2, coeffOf_listSum]
            simp only [List.map_append, List.sum_append]
            rw [coeff_opt_toList, coeff_opt_toList, coeff_opt_toList,
              term1_coeff data vd ct1.1 ct1.2 o (by rw [h1]) hne hnd hmem htype,
              term2_coeff data vd ct2.1 ct2.2 o.order_id (by rw [h2]) hne,
              term3_coeff data vd ct3.1 ct3.2 o.order_id (by rw [h3])]
            ring

theorem coeff8_value :
    set_combined_objective cdata8 ([] : VariableDict) = .ok ([], some ce8) ∧
      coeffOf ce8 (Var.is_tardy oid1) = 7 / 40 := by
  refine ⟨rfl, ?_⟩
  have hwt : 0 < w_tardiness cdata8.settings := by
    rw [show w_tardiness cdata8.settings = 1 from rfl]
    norm_num
  have h := combined_coeff_firm cdata8 [] [] ce8
      (validateOrder (buildFactoryMap [cF1]) cO8a) rfl (by decide) (by decide) rfl
  rw [show (validateOrder (buildFactoryMap [cF1]) cO8a).order_id = oid1 from rfl] at h
  rw [if_pos hwt, show w_tardiness cdata8.settings = 1 from rfl,
    show firm_tardy_weight cdata8.settings = 7 / 10 from rfl,
    show (firm_orders cdata8).length = 2 from rfl,
    show cdata8.orders.length = 2 from rfl] at h
  rw [h]
  norm_num

/-- C8 counterexample: with weights {tardiness: 1} and two firm orders,
the claim says the tardiness contribution gives each is_tardy variable
coefficient w_tardiness * firm_tardy_weight / N_firm = 7/20, but the
emitted objective carries the extra 1/total_orders factor: 7/40. -/
theorem C8_counterexample_extra_factor :
    set_combined_objective cdata8 ([] : VariableDict) = .ok ([], some ce8) ∧
      coeffOf ce8 (Var.is_tardy oid1) = 7 / 40 ∧
      ¬ coeffOf ce8 (Var.is_tardy oid1) =
          w_tardiness cset8 * (firm_tardy_weight cset8 * (1 / ((firm_orders cdata8).length : ℚ))) := by
  refine ⟨coeff8_value.1, coeff8_value.2, ?_⟩
  rw [coeff8_value.2, show w_tardiness cset8 = 1 from rfl,
    show firm_tardy_weight cset8 = 7 / 10 from rfl,
    show (firm_orders cdata8).length = 2 from rfl]
  norm_num

/-- C9 counterexample: the same emitted objective carries the
non-integer coefficient 7/40 on is_tardy of order O1: no integer lifting
or global multiplier is applied before submission. -/
theorem C9_counterexample_noninteger_coeff :
    set_combined_objective cdata8 ([] : VariableDict) = .ok ([], some ce8) ∧
      coeffOf ce8 (Var.is_tardy oid1) = 7 / 40 ∧
      ¬ ∃ z : ℤ, coeffOf ce8 (Var.is_tardy oid1) = (z : ℚ) := by
  refine ⟨coeff8_value.1, coeff8_value.2, ?_⟩
  rintro ⟨z, hz⟩
  rw [coeff8_value.2] at hz
  have h40 : (40 : ℚ) * z = 7 := by
    rw [← hz]
    norm_num
  have hz2 : (40 : ℤ) * z = 7 := by exact_mod_cast h40
  omega

/-- C9 amended: rational coefficients are laid directly into the emitted
objective with no global integer multiplier: the coefficient of a firm
order's is_tardy variable equals w_tardiness * firm_tardy_weight *
(1/N_firm) * (1/N) whenever the tardiness weight is positive, and 0
otherwise (the build itself is a pure, deterministic function of the
input). -/
theorem C9_amended_rational_coefficients (data : APSInputData) (vd : VariableDict)
    (cs : List Constraint) (e : LinExpr) (o : Order)
    (hok : set_combined_objective data vd = .ok (cs, some e))
    (hnd : (data.orders.map (fun o2 => o2.order_id)).Nodup)
    (hmem : o ∈ data.orders) (htype : o.order_type = 1) :
    coeffOf e (Var.is_tardy o.order_id) =
      (if 0 < w_tardiness data.settings then
        w_tardiness data.settings * firm_tardy_weight data.settings *
          (1 / ((firm_orders data).length : ℚ)) * (1 / (data.orders.length : ℚ))
      else 0) :=
  combined_coeff_firm data vd cs e o hok hnd hmem htype

/-- C9 amended witness: on the concrete two-firm-order input the
coefficient formula evaluates through the claim theorem. -/
theorem C9_amended_rational_coefficients_witness :
    coeffOf ce8 (Var.is_tardy (validateOrder (buildFactoryMap [cF1]) cO8a).order_id) =
      (if 0 < w_tardiness cdata8.settings then
        w_tardiness cdata8.settings * firm_tardy_weight cdata8.settings *
          (1 / ((firm_orders cdata8).length : ℚ)) * (1 / (cdata8.orders.length : ℚ))
      else 0) :=
  C9_amended_rational_coefficients cdata8 [] [] ce8
    (validateOrder (buildFactoryMap [cF1]) cO8a) rfl (by decide) (by decide) rfl

/-- C8 amended witness: the emitted expression of the concrete scenario
evaluates to the amended composite formula under the all-ones valuation. -/
theorem C8_amended_combined_formula_witness :
    ce8.eval (fun _ => 1) = combined_objective_formula cdata8 (fun _ => 1) :=
  C8_amended_combined_formula cdata8 [] [] ce8 coeff8_value.1 (fun _ => 1)

end APS
